import Mathlib

/-!
# docsonnet: the fast loader (`pkg/docsonnet/fast.go`)

A shallow embedding of the decoder that turns the untyped value produced by
the Jsonnet evaluator into a `Package`, and theorems about it.

Conventions of the embedding:

* a Go `map[string]interface{}` is an association list `Msi`; the order of the
  list is the order in which a `range` loop visits the entries, a Go map has
  no two entries with one key (stated as `Nodup` of the keys where needed),
  and `m[k]` is `List.lookup k m`;
* a Go panic, a failed type assertion and `log.Fatalln` are the three
  constructors of `Err`; every loader returns `Except Err _`;
* the output maps (`Fields`, `Package.Sub`) are association lists written with
  `mapSet` (overwrite the entry of the key, or add one) and read with
  `List.lookup`;
* the diagnostic that `loadObj` prints on standard output is not part of the
  returned value and is left out.
-/

namespace Docsonnet

/-! ## Input values -/

/-- The dynamic values of Go's `interface{}` after JSON decoding. -/
inductive Val where
  | null
  | bool (b : Bool)
  | num (n : Int)
  | str (s : String)
  | seq (xs : List Val)
  | map (m : List (String × Val))

/-- The Go type `map[string]interface{}`, entries in visiting order. -/
abbrev Msi := List (String × Val)

/-- The Go type `ds`, a named `map[string]interface{}`. -/
abbrev ds := Msi

/-- The three ways a loader stops without a result. -/
inductive Err where
  /-- `log.Fatalln(msg)`: the process exits. -/
  | fatal (msg : String)
  /-- `panic(msg)` raised by the loader itself. -/
  | panic (msg : String)
  /-- A failed type assertion `v.(T)`, a run-time panic. -/
  | typeAssertion
  deriving DecidableEq, Repr

/-! ## Output model -/

/-- Modelled from the spec: the type `Argument` (its declaration is not in
`fast.go`): name, type tag and an opaque default, `null` when absent. -/
structure Argument where
  Name : String
  Type_ : String
  Default : Val

/-- Modelled from the spec: the type `Function`: name, help and the ordered
arguments. -/
structure Function where
  Name : String
  Help : String
  Args : List Argument

/-- Modelled from the spec: the type `Value`: name, help, type tag and an
opaque default, `null` when absent. -/
structure Value where
  Name : String
  Help : String
  Type_ : String
  Default : Val

mutual
/-- Modelled from the spec: the type `Field`, a record of three optional
pointers as the composite literals `Field{Function: &fn}`, `Field{Object: &out}`
and `Field{Value: &v}` of `fast.go` use it. -/
inductive Field where
  | mk (Function : Option Function) (Object : Option Object) (Value : Option Value)
/-- Modelled from the spec: the type `Object`: name, help and the mapping of
its fields. -/
inductive Object where
  | mk (Name : String) (Help : String) (Fields : List (String × Field))
end

/-- Modelled from the spec: the type `Fields`, a mapping from field name to
`Field`. -/
abbrev Fields := List (String × Field)

/-- Modelled from the spec: the type `Package`: identity strings, the API
fields and the sub-packages by name. -/
structure Package where
  Help : String
  Name : String
  Import : String
  API : Fields
  Sub : List (String × Package)

/-- The `Function` pointer of a field. -/
def Field.Function : Field → Option Function
  | .mk f _ _ => f

/-- The `Object` pointer of a field. -/
def Field.Object : Field → Option Object
  | .mk _ o _ => o

/-- The `Value` pointer of a field. -/
def Field.Value : Field → Option Value
  | .mk _ _ v => v

/-- The name of an object. -/
def Object.Name : Object → String
  | .mk n _ _ => n

/-- The help text of an object. -/
def Object.Help : Object → String
  | .mk _ h _ => h

/-- The fields of an object. -/
def Object.Fields : Object → Fields
  | .mk _ _ fs => fs

/-! ## Primitive operations -/

/-- Go `strings.HasPrefix(k, "#")`. -/
def hasPrefix (k : String) : Bool :=
  match k.data with
  | '#' :: _ => true
  | _ => false

/-- Go `strings.TrimPrefix(k, "#")`: one leading marker is removed. -/
def trimPrefix (k : String) : String :=
  match k.data with
  | '#' :: rest => String.mk rest
  | _ => k

/-- Go map assignment `m[k] = v`: the entry of `k` is overwritten, or a new
entry is added. -/
def mapSet {β : Type} (m : List (String × β)) (k : String) (v : β) : List (String × β) :=
  match m with
  | [] => [(k, v)]
  | (k', v') :: rest => if k' = k then (k, v) :: rest else (k', v') :: mapSet rest k v

/-- Go type assertion `v.(string)` on the result of a map read. -/
def asString : Option Val → Except Err String
  | some (.str s) => .ok s
  | _ => .error .typeAssertion

/-- Go type assertion `v.(map[string]interface{})`. -/
def asMap : Val → Except Err Msi
  | .map m => .ok m
  | _ => .error .typeAssertion

/-- Go `h, ok := msi["help"].(string); if !ok { h = "" }`. -/
def helpOrEmpty (msi : Msi) : String :=
  match msi.lookup "help" with
  | some (.str s) => s
  | _ => ""

/-- Go `msi["default"]`: the value, or nil when the key is absent. -/
def defaultOf (msi : Msi) : Val :=
  (msi.lookup "default").getD .null

/-- Source `fieldsHas`. -/
def fieldsHas (f : Fields) (key : String) : Bool :=
  (f.lookup key).isSome

/-! ## Loaders without recursion -/

/-- Source `loadValue`. -/
def loadValue (name : String) (msi : Msi) : Except Err Field :=
  let h := helpOrEmpty msi
  match msi.lookup "type" with
  | some (.str t) =>
    .ok (.mk none none
      (some { Name := name, Help := h, Type_ := t, Default := defaultOf msi }))
  | _ => .error (.panic ("value " ++ name ++ " lacking type information"))

/-- Source `loadArgs`. -/
def loadArgs (is : List Val) : Except Err (List Argument) :=
  is.mapM fun i => do
    let arg ← asMap i
    let n ← asString (arg.lookup "name")
    let t ← asString (arg.lookup "type")
    pure { Name := n, Type_ := t, Default := defaultOf arg }

/-- Source `loadFn`. -/
def loadFn (name : String) (msi : Msi) : Except Err Field :=
  let h := helpOrEmpty msi
  match msi.lookup "args" with
  | some args =>
    match args with
    | .seq is => do
      let as ← loadArgs is
      pure (.mk (some { Name := name, Help := h, Args := as }) none none)
    | _ => throw .typeAssertion
  | none => pure (.mk (some { Name := name, Help := h, Args := [] }) none none)

/-- Source `ds.Package`. The maps `API` and `Sub` are nil in the result, which
is the empty mapping here. -/
def ds.Package (d : ds) : Except Err Package :=
  match d.lookup "#" with
  | none => .error (.fatal "Package declaration missing")
  | some hash => do
    let pkg ← asMap hash
    let help ← asString (pkg.lookup "help")
    let name ← asString (pkg.lookup "name")
    let imp ← asString (pkg.lookup "import")
    pure { Help := help, Name := name, Import := imp, API := [], Sub := [] }

/-! ## Termination measures -/

theorem sizeOf_lt_of_lookup {k : String} {v : Val} :
    ∀ {m : Msi}, m.lookup k = some v → sizeOf v < sizeOf m
  | [], h => by simp at h
  | (k', v') :: rest, h => by
    simp only [List.lookup_cons] at h
    split at h
    · cases h; simp; omega
    · have := sizeOf_lt_of_lookup h
      simp; omega

theorem sizeOf_lt_of_mem_map {k : String} {m f : Msi} (h : (k, Val.map f) ∈ m) :
    sizeOf f < sizeOf m := by
  have := List.sizeOf_lt_of_mem h
  simp at this
  omega

theorem sizeOf_lt_of_lookup_map {k : String} {m f : Msi} (h : m.lookup k = some (Val.map f)) :
    sizeOf f < sizeOf m := by
  have := sizeOf_lt_of_lookup h
  simp at this
  omega

/-! ## The recursive loaders -/

mutual

/-- Source `fastLoad`. The loop state is the package under construction. -/
def fastLoad (d : ds) : Except Err Package := do
  let pkg ← ds.Package d
  let pkg : Package := { pkg with API := [], Sub := [] }
  d.attach.foldlM (fun (pkg : Package) e =>
    match e with
    | ⟨(k, v), hmem⟩ =>
      if k = "#" then pure pkg
      else
        match v, hmem with
        | .map f, hmem =>
          let name := trimPrefix k
          if hasPrefix k then do
            let l ← loadField name f d
            pure { pkg with API := mapSet pkg.API name l }
          else if (f.lookup "#").isSome then do
            let p ← fastLoad f
            pure { pkg with Sub := mapSet pkg.Sub p.Name p }
          else do
            match ← loadNested name f with
            | some nested =>
              if !fieldsHas pkg.API name then
                pure { pkg with API := mapSet pkg.API name nested }
              else pure pkg
            | none => pure pkg
        | _, _ => throw Err.typeAssertion) pkg
termination_by (sizeOf d, 2)
decreasing_by
  all_goals first
    | exact Prod.Lex.right _ (by decide)
    | exact Prod.Lex.left _ _ (sizeOf_lt_of_mem_map hmem)

/-- Source `loadNested`. The result `none` is Go's `(nil, false)`. -/
def loadNested (name : String) (msi : Msi) : Except Err (Option Field) := do
  let (fields, ok) ← msi.attach.foldlM (fun (acc : Fields × Bool) e =>
    match e with
    | ⟨(k, v), hmem⟩ =>
      match v, hmem with
      | .map f, hmem =>
        let n := trimPrefix k
        if !hasPrefix k then do
          match ← loadNested k f with
          | some l => pure (mapSet acc.1 n l, acc.2)
          | none => pure acc
        else do
          let l ← loadField n f msi
          pure (mapSet acc.1 n l, true)
      | _, _ => throw Err.typeAssertion) (([] : Fields), false)
  if !ok then pure none
  else pure (some (.mk none (some (.mk name "" fields)) none))
termination_by (sizeOf msi, 2)
decreasing_by
  all_goals first
    | exact Prod.Lex.right _ (by decide)
    | exact Prod.Lex.left _ _ (sizeOf_lt_of_mem_map hmem)

/-- Source `loadField`. -/
def loadField (name : String) (field : Msi) (parent : Msi) : Except Err Field :=
  match field.lookup "function" with
  | some ifn => do
    let m ← asMap ifn
    loadFn name m
  | none =>
    match field.lookup "object" with
    | some iobj =>
      match iobj with
      | .map m => loadObj name m parent
      | _ => throw .typeAssertion
    | none =>
      match field.lookup "value" with
      | some vobj => do
        let m ← asMap vobj
        loadValue name m
      | none => throw (.panic ("field " ++ name ++ " lacking \x7bfunction | object | value\x7d"))
termination_by (sizeOf parent, 1)
decreasing_by
  exact Prod.Lex.right _ (by decide)

/-- Source `loadObj`. -/
def loadObj (name : String) (msi : Msi) (parent : Msi) : Except Err Field := do
  let help ← asString (msi.lookup "help")
  match hp : parent.lookup name with
  | none => pure (.mk none (some (.mk name help [])) none)
  | some iChilds =>
    match iChilds, hp with
    | .map childs, hp => do
      let fields ← childs.attach.foldlM (fun (acc : Fields) e =>
        match e with
        | ⟨(k, v), hmem⟩ =>
          let name := trimPrefix k
          match v, hmem with
          | .map f, hmem =>
            if !hasPrefix k then do
              match ← loadNested k f with
              | some l => pure (mapSet acc name l)
              | none => pure acc
            else do
              let l ← loadField name f childs
              pure (mapSet acc name l)
          | _, _ => throw Err.typeAssertion) ([] : Fields)
      pure (.mk none (some (.mk name help fields)) none)
    | _, _ => throw .typeAssertion
termination_by (sizeOf parent, 0)
decreasing_by
  all_goals first
    | exact Prod.Lex.left _ _ (Nat.lt_trans (sizeOf_lt_of_mem_map hmem) (sizeOf_lt_of_lookup_map hp))
    | exact Prod.Lex.left _ _ (sizeOf_lt_of_lookup_map hp)

end

/-! ## The loop bodies, and the loaders as folds over the entries -/

/-- One iteration of the loop of `fastLoad` over the mapping `d`. -/
def fastLoadStep (d : ds) (pkg : Package) (e : String × Val) : Except Err Package :=
  if e.1 = "#" then pure pkg
  else
    match e.2 with
    | .map f =>
      let name := trimPrefix e.1
      if hasPrefix e.1 then do
        let l ← loadField name f d
        pure { pkg with API := mapSet pkg.API name l }
      else if (f.lookup "#").isSome then do
        let p ← fastLoad f
        pure { pkg with Sub := mapSet pkg.Sub p.Name p }
      else do
        match ← loadNested name f with
        | some nested =>
          if !fieldsHas pkg.API name then
            pure { pkg with API := mapSet pkg.API name nested }
          else pure pkg
        | none => pure pkg
    | _ => throw Err.typeAssertion

/-- One iteration of the loop of `loadNested` over the mapping `msi`. -/
def loadNestedStep (msi : Msi) (acc : Fields × Bool) (e : String × Val) :
    Except Err (Fields × Bool) :=
  match e.2 with
  | .map f =>
    let n := trimPrefix e.1
    if !hasPrefix e.1 then do
      match ← loadNested e.1 f with
      | some l => pure (mapSet acc.1 n l, acc.2)
      | none => pure acc
    else do
      let l ← loadField n f msi
      pure (mapSet acc.1 n l, true)
  | _ => throw Err.typeAssertion

/-- One iteration of the loop of `loadObj` over the mapping `childs`. -/
def loadObjStep (childs : Msi) (acc : Fields) (e : String × Val) : Except Err Fields :=
  let name := trimPrefix e.1
  match e.2 with
  | .map f =>
    if !hasPrefix e.1 then do
      match ← loadNested e.1 f with
      | some l => pure (mapSet acc name l)
      | none => pure acc
    else do
      let l ← loadField name f childs
      pure (mapSet acc name l)
  | _ => throw Err.typeAssertion

/-! ## Predicates and concrete inputs used in the statements -/

/-- The outcomes of one iteration of the loop of `fastLoad` that does not fail. -/
inductive FastLoadStepOk (d : ds) (pkg : Package) (e : String × Val) (pkg' : Package) : Prop
  | reserved (hk : e.1 = "#") (heq : pkg' = pkg)
  | annotated (f : Msi) (l : Field) (hk : e.1 ≠ "#") (hv : e.2 = .map f)
      (hpre : hasPrefix e.1 = true) (hl : loadField (trimPrefix e.1) f d = .ok l)
      (heq : pkg' = { pkg with API := mapSet pkg.API (trimPrefix e.1) l })
  | subPackage (f : Msi) (p : Package) (hk : e.1 ≠ "#") (hv : e.2 = .map f)
      (hpre : hasPrefix e.1 = false) (hsub : (f.lookup "#").isSome = true)
      (hp : fastLoad f = .ok p)
      (heq : pkg' = { pkg with Sub := mapSet pkg.Sub p.Name p })
  | nestedNew (f : Msi) (nested : Field) (hk : e.1 ≠ "#") (hv : e.2 = .map f)
      (hpre : hasPrefix e.1 = false) (hsub : (f.lookup "#").isSome = false)
      (hn : loadNested (trimPrefix e.1) f = .ok (some nested))
      (hhas : fieldsHas pkg.API (trimPrefix e.1) = false)
      (heq : pkg' = { pkg with API := mapSet pkg.API (trimPrefix e.1) nested })
  | nestedKept (f : Msi) (nested : Field) (hk : e.1 ≠ "#") (hv : e.2 = .map f)
      (hpre : hasPrefix e.1 = false) (hsub : (f.lookup "#").isSome = false)
      (hn : loadNested (trimPrefix e.1) f = .ok (some nested))
      (hhas : fieldsHas pkg.API (trimPrefix e.1) = true)
      (heq : pkg' = pkg)
  | plain (f : Msi) (hk : e.1 ≠ "#") (hv : e.2 = .map f)
      (hpre : hasPrefix e.1 = false) (hsub : (f.lookup "#").isSome = false)
      (hn : loadNested (trimPrefix e.1) f = .ok none)
      (heq : pkg' = pkg)

/-- Every entry of `Sub` is the decoded sub-package of some unprefixed entry of
the mapping, stored under the name that sub-package declares. -/
def SubFrom (d : ds) (pkg : Package) : Prop :=
  ∀ n q, pkg.Sub.lookup n = some q →
    ∃ k f, (k, Val.map f) ∈ d ∧ hasPrefix k = false ∧ (f.lookup "#").isSome = true ∧
      fastLoad f = .ok q ∧ q.Name = n

mutual
/-- Some key of a mapping inside the value carries the marker prefix. -/
def markedVal : Val → Bool
  | .map m => markedEntries m
  | .seq xs => markedList xs
  | _ => false
/-- Some key of the mapping, at any depth, carries the marker prefix. -/
def markedEntries : Msi → Bool
  | [] => false
  | (k, v) :: rest => hasPrefix k || markedVal v || markedEntries rest
/-- Some key of a mapping inside the sequence carries the marker prefix. -/
def markedList : List Val → Bool
  | [] => false
  | v :: vs => markedVal v || markedList vs
end

mutual
/-- The value is a mapping all of whose values, at every depth, are mappings. -/
def mapsOnlyVal : Val → Bool
  | .map m => mapsOnlyEntries m
  | _ => false
/-- Every value of the mapping, at every depth, is a mapping. -/
def mapsOnlyEntries : Msi → Bool
  | [] => true
  | (_, v) :: rest => mapsOnlyVal v && mapsOnlyEntries rest
end

/-- Package metadata `{name: "k8s", help: "desc", import: "k.libsonnet"}`. -/
def exMeta : Val :=
  .map [("name", .str "k8s"), ("help", .str "desc"), ("import", .str "k.libsonnet")]

/-- Field metadata `{value: {type: "string"}}`. -/
def exValue : Val := .map [("value", .map [("type", .str "string")])]

/-- The field that `exValue` decodes to under the name `n`. -/
def exField (n : String) : Field :=
  .mk none none (some { Name := n, Help := "", Type_ := "string", Default := .null })

/-- The data `{"#y": {value: {type: "string"}}}` of an unannotated object. -/
def exInner : Msi := [("#y", exValue)]

/-- The object that `loadNested` synthesizes from `exInner` under the name `n`. -/
def exNested (n : String) : Field :=
  .mk none (some (.mk n "" [("y", exField "y")])) none

/-- Field metadata `{object: {help: "hx"}}`. -/
def exObject : Val := .map [("object", .map [("help", .str "hx")])]

/-- The field that `exObject` decodes to under the name `x` next to the sibling
data `exInner`. -/
def exAnnotated : Field :=
  .mk none (some (.mk "x" "hx" [("y", exField "y")])) none

/-- Children of an object: the annotated object `x` and its data, the annotated
key visited before its unprefixed sibling. -/
def exChildren : Msi := [("#x", exObject), ("x", .map exInner)]

/-- The children `exChildren`, the unprefixed sibling visited first. -/
def exChildrenRev : Msi := [("x", .map exInner), ("#x", exObject)]

/-- A root with an annotated object `o` whose data are `childs`. -/
def exRootObj (childs : Msi) : ds :=
  [("#", exMeta), ("#o", .map [("object", .map [("help", .str "h")])]), ("o", .map childs)]

/-- Sub-package data declaring the name `p` with help text `h`. -/
def exSub (h : String) : Val :=
  .map [("#", .map [("name", .str "p"), ("help", .str h), ("import", .str "i")])]

/-- A mapping whose only marker-prefixed key lies below the unprefixed child `a`. -/
def exDeep : Msi := [("a", .map exInner)]

/-- The mapping `exDeep` with the annotated value `z` next to the child `a`. -/
def exDeepMixed : Msi := [("#z", exValue), ("a", .map exInner)]

/-- A root with the annotated value `x` listed before its unprefixed sibling. -/
def exRoot : ds := [("#", exMeta), ("#x", exValue), ("x", .map exInner)]

/-- The root `exRoot`, the unprefixed sibling `x` visited before `"#x"`. -/
def exOrder : ds := [("#", exMeta), ("x", .map exInner), ("#x", exValue)]

/-- A root with two sub-packages that declare the same name `p`. -/
def exRootSubs : ds := [("#", exMeta), ("a", exSub "h1"), ("b", exSub "h2")]

/-- The root `exRootSubs`, the sub-package `b` visited before `a`. -/
def exRootSubsRev : ds := [("#", exMeta), ("b", exSub "h2"), ("a", exSub "h1")]

/-- A root with the single sub-package `lib`. -/
def exRootLib : ds := [("#", exMeta), ("lib", exSub "h1")]

/-- The package that `exSub h` decodes to. -/
def exSubPkg (h : String) : Package :=
  { Help := h, Name := "p", Import := "i", API := [], Sub := [] }

/-- A root whose annotated value `foo` has no `type`. -/
def exRootNoType : ds :=
  [("#", exMeta), ("#foo", .map [("value", .map [("help", .str "a value")])])]

/-- Scenario B as the specification writes it: the help text next to the marker
`object`, whose mapping is empty. -/
def exScenarioB : ds :=
  [("#", exMeta), ("#widget", .map [("object", .map []), ("help", .str "a widget")])]

/-- The object `widget` without fields. -/
def exWidget : Field := .mk none (some (.mk "widget" "a widget" [])) none

/-- The value metadata of Scenario A. -/
def exScenarioAValue : Val :=
  .map [("value", .map [("type", .str "string"), ("default", .str "bar"),
    ("help", .str "a value")])]

/-- Scenario A as the specification writes it, with the scalar sibling `foo`. -/
def exScenarioA : ds :=
  [("#", exMeta), ("#foo", exScenarioAValue), ("foo", .str "unused")]

/-- The value `foo` of Scenario A. -/
def exFoo : Field :=
  .mk none none
    (some { Name := "foo", Help := "a value", Type_ := "string", Default := .str "bar" })

/-- The body of the loop of `loadArgs` on one element of the sequence. -/
def loadArg (i : Val) : Except Err Argument := do
  let arg ← asMap i
  let n ← asString (arg.lookup "name")
  let t ← asString (arg.lookup "type")
  pure { Name := n, Type_ := t, Default := defaultOf arg }

/-- The argument `a` is the one that the element `v` of `args` describes: `v` is
a mapping whose `name` and `type` are the strings `a.Name` and `a.Type`, and
`a.Default` is its `default`, nil when the key is absent. -/
def ArgumentOf (v : Val) (a : Argument) : Prop :=
  ∃ arg, v = .map arg ∧ arg.lookup "name" = some (.str a.Name) ∧
    arg.lookup "type" = some (.str a.Type_) ∧ a.Default = (arg.lookup "default").getD .null

/-- The outcomes of one iteration of the loop of `loadNested` that does not fail. -/
inductive LoadNestedStepOk (msi : Msi) (acc : Fields × Bool) (e : String × Val)
    (acc' : Fields × Bool) : Prop
  | annotated (f : Msi) (l : Field) (hv : e.2 = .map f) (hpre : hasPrefix e.1 = true)
      (hl : loadField (trimPrefix e.1) f msi = .ok l)
      (heq : acc' = (mapSet acc.1 (trimPrefix e.1) l, true))
  | found (f : Msi) (l : Field) (hv : e.2 = .map f) (hpre : hasPrefix e.1 = false)
      (hn : loadNested e.1 f = .ok (some l))
      (heq : acc' = (mapSet acc.1 (trimPrefix e.1) l, acc.2))
  | skipped (f : Msi) (hv : e.2 = .map f) (hpre : hasPrefix e.1 = false)
      (hn : loadNested e.1 f = .ok none) (heq : acc' = acc)

/-- The outcomes of one iteration of the loop of `loadObj` that does not fail. -/
inductive LoadObjStepOk (childs : Msi) (acc : Fields) (e : String × Val)
    (acc' : Fields) : Prop
  | annotated (f : Msi) (l : Field) (hv : e.2 = .map f) (hpre : hasPrefix e.1 = true)
      (hl : loadField (trimPrefix e.1) f childs = .ok l)
      (heq : acc' = mapSet acc (trimPrefix e.1) l)
  | found (f : Msi) (l : Field) (hv : e.2 = .map f) (hpre : hasPrefix e.1 = false)
      (hn : loadNested e.1 f = .ok (some l))
      (heq : acc' = mapSet acc (trimPrefix e.1) l)
  | skipped (f : Msi) (hv : e.2 = .map f) (hpre : hasPrefix e.1 = false)
      (hn : loadNested e.1 f = .ok none) (heq : acc' = acc)

/-- The entry `e` of a root makes `fastLoad` store a field under `name`: it is an
annotated key other than the reserved one that strips to `name`, or it is the
unprefixed key `name` whose value is a mapping without the reserved key and
with a marker-prefixed key of its own. -/
def DeclaresApi (e : String × Val) (name : String) : Prop :=
  (hasPrefix e.1 = true ∧ e.1 ≠ "#" ∧ trimPrefix e.1 = name) ∨
  (∃ f, e = (name, Val.map f) ∧ hasPrefix name = false ∧ f.lookup "#" = none ∧
    ∃ e' ∈ f, hasPrefix e'.1 = true)

/-- A root with the doubly marked key `"##x"`, the unannotated object `a` that has
an annotated member, the plain data `b`, and the sub-package `lib`. -/
def exRootKeys : ds :=
  [("#", exMeta), ("##x", exValue), ("a", .map exInner), ("b", .map []),
    ("lib", exSub "h1")]

/-- The number of populated variants of a field. -/
def Field.populated : Field → Nat
  | .mk fn o v => fn.isSome.toNat + o.isSome.toNat + v.isSome.toNat

mutual
/-- The field has exactly one populated variant, and so has every field of the
object it holds, at any depth. -/
def Field.tagged : Field → Bool
  | .mk fn o v => (Field.populated (.mk fn o v) == 1) && optObjectTagged o
/-- The object under the pointer, when there is one, has tagged fields only. -/
def optObjectTagged : Option Object → Bool
  | none => true
  | some ob => Object.tagged ob
/-- Every field of the object is tagged. -/
def Object.tagged : Object → Bool
  | .mk _ _ fs => fieldsTagged fs
/-- Every field of the mapping is tagged. -/
def fieldsTagged : List (String × Field) → Bool
  | [] => true
  | e :: rest => entryTagged e && fieldsTagged rest
/-- The field of the entry is tagged. -/
def entryTagged : String × Field → Bool
  | (_, f) => Field.tagged f
end

mutual
/-- Every field of `API` is tagged, and so is every sub-package in `Sub`, at any
depth. -/
def Package.tagged : Package → Bool
  | ⟨_, _, _, api, sub⟩ => fieldsTagged api && subsTagged sub
/-- Every sub-package of the mapping is tagged. -/
def subsTagged : List (String × Package) → Bool
  | [] => true
  | e :: rest => subTagged e && subsTagged rest
/-- The sub-package of the entry is tagged. -/
def subTagged : String × Package → Bool
  | (_, p) => Package.tagged p
end

/-! # Theorems -/

/-! ## The loaders as folds -/

theorem foldlM_attach_eq {α β : Type} (l : List α) (g : β → α → Except Err β)
    (f : β → {x // x ∈ l} → Except Err β) (h : ∀ b x, f b x = g b x.1) (init : β) :
    l.attach.foldlM f init = l.foldlM g init := by
  have hf : f = fun b x => g b x.1 := by funext b x; exact h b x
  subst hf
  have key : ∀ (l' : List {x // x ∈ l}) (b : β),
      l'.foldlM (fun b x => g b x.1) b = (l'.map Subtype.val).foldlM g b := by
    intro l'
    induction l' with
    | nil => intro b; rfl
    | cons x xs ih =>
      intro b
      simp only [List.foldlM_cons, List.map_cons]
      congr 1
      funext b'
      exact ih b'
  rw [key, List.attach_map_subtype_val]

theorem fastLoad_eq (d : ds) :
    fastLoad d = (do
      let pkg ← ds.Package d
      d.foldlM (fastLoadStep d) { pkg with API := [], Sub := [] }) := by
  unfold fastLoad
  congr 1
  funext pkg
  rw [foldlM_attach_eq d (fastLoadStep d)]
  rintro b ⟨⟨k, v⟩, hm⟩
  simp only [fastLoadStep]
  split
  · rfl
  · cases v <;> rfl

theorem loadNested_eq (name : String) (msi : Msi) :
    loadNested name msi = (do
      let r ← msi.foldlM (loadNestedStep msi) (([] : Fields), false)
      if !r.2 then pure none
      else pure (some (.mk none (some (.mk name "" r.1)) none))) := by
  unfold loadNested
  rw [foldlM_attach_eq msi (loadNestedStep msi)]
  rintro b ⟨⟨k, v⟩, hm⟩
  simp only [loadNestedStep]
  cases v <;> rfl

theorem loadObj_eq (name : String) (msi parent : Msi) :
    loadObj name msi parent = (do
      let help ← asString (msi.lookup "help")
      match parent.lookup name with
      | none => pure (.mk none (some (.mk name help [])) none)
      | some (.map childs) => do
        let fields ← childs.foldlM (loadObjStep childs) ([] : Fields)
        pure (.mk none (some (.mk name help fields)) none)
      | some _ => throw .typeAssertion) := by
  unfold loadObj
  congr 1
  funext help
  split
  · rename_i h; simp only [h]
  · rename_i iChilds h
    cases iChilds with
    | map childs =>
      simp only [h]
      rw [foldlM_attach_eq childs (loadObjStep childs)]
      rintro b ⟨⟨k, v⟩, hm⟩
      simp only [loadObjStep]
      cases v <;> rfl
    | _ => simp only [h]

/-! ## Facts about the primitive operations -/

theorem lookup_mapSet_self {β : Type} (m : List (String × β)) (k : String) (v : β) :
    (mapSet m k v).lookup k = some v := by
  induction m with
  | nil => simp [mapSet, List.lookup]
  | cons e rest ih =>
    obtain ⟨k', v'⟩ := e
    by_cases h : k' = k
    · simp [mapSet, h, List.lookup]
    · have h' : (k == k') = false := by simpa using fun h'' => h h''.symm
      simp [mapSet, h, List.lookup, h', ih]

theorem lookup_mapSet_ne {β : Type} (m : List (String × β)) (k k' : String) (v : β)
    (hne : k' ≠ k) : (mapSet m k v).lookup k' = m.lookup k' := by
  induction m with
  | nil =>
    have h' : (k' == k) = false := by simpa using hne
    simp [mapSet, List.lookup, h']
  | cons e rest ih =>
    obtain ⟨k0, v0⟩ := e
    by_cases h : k0 = k
    · subst h
      have h' : (k' == k0) = false := by simpa using hne
      simp [mapSet, List.lookup, h']
    · simp only [mapSet, h, if_false, List.lookup_cons, ih]

theorem hasPrefix_marker (x : String) : hasPrefix ("#" ++ x) = true := by
  simp [hasPrefix, String.data_append]

theorem trimPrefix_marker (x : String) : trimPrefix ("#" ++ x) = x := by
  simp [trimPrefix, String.data_append]

theorem hasPrefix_data {k : String} (h : hasPrefix k = true) :
    ∃ rest, k.data = '#' :: rest := by
  unfold hasPrefix at h
  split at h
  · rename_i rest heq; exact ⟨rest, heq⟩
  · cases h

theorem not_hasPrefix_data {k : String} (h : hasPrefix k = false) :
    ∀ rest, k.data ≠ '#' :: rest := by
  intro rest heq
  simp [hasPrefix, heq] at h

theorem eq_marker_of_hasPrefix {k : String} (h : hasPrefix k = true) :
    k = "#" ++ trimPrefix k := by
  obtain ⟨rest, hr⟩ := hasPrefix_data h
  apply String.ext
  simp [trimPrefix, hr, String.data_append]

theorem trimPrefix_of_not {k : String} (h : hasPrefix k = false) : trimPrefix k = k := by
  unfold trimPrefix
  split
  · rename_i rest heq; exact absurd heq (not_hasPrefix_data h rest)
  · rfl

theorem not_hasPrefix_trim_eq {k x : String} (h : hasPrefix k = true) (hne : k ≠ "#" ++ x) :
    trimPrefix k ≠ x := by
  intro heq
  apply hne
  rw [← heq]
  exact eq_marker_of_hasPrefix h

theorem marker_ne_reserved {x : String} (hx : x ≠ "") : "#" ++ x ≠ "#" := by
  intro h
  apply hx
  have := congrArg String.data h
  simp [String.data_append] at this
  apply String.ext
  simpa using this

/-! ## Reading an association list -/

theorem mem_of_lookup {β : Type} {k : String} {v : β} :
    ∀ {l : List (String × β)}, l.lookup k = some v → (k, v) ∈ l
  | [], h => by simp at h
  | (k', v') :: rest, h => by
    simp only [List.lookup_cons] at h
    split at h
    · rename_i heq
      have : k = k' := by simpa using heq
      cases h; subst this; exact List.mem_cons_self _ _
    · exact List.mem_cons_of_mem _ (mem_of_lookup h)

theorem lookup_of_mem_nodup {β : Type} {k : String} {v : β} :
    ∀ {l : List (String × β)}, (l.map Prod.fst).Nodup → (k, v) ∈ l → l.lookup k = some v
  | [], _, h => by simp at h
  | (k', v') :: rest, hnd, h => by
    simp only [List.map_cons, List.nodup_cons] at hnd
    simp only [List.lookup_cons]
    rcases List.mem_cons.1 h with heq | hmem
    · cases heq; simp
    · have hne : k ≠ k' := by
        rintro rfl
        exact hnd.1 (List.mem_map.2 ⟨(k, v), hmem, rfl⟩)
      have : (k == k') = false := by simpa using hne
      simp only [this]
      exact lookup_of_mem_nodup hnd.2 hmem

theorem lookup_perm {β : Type} {l l' : List (String × β)} (hp : l.Perm l')
    (hnd : (l.map Prod.fst).Nodup) (k : String) : l.lookup k = l'.lookup k := by
  have hnd' : (l'.map Prod.fst).Nodup := (hp.map Prod.fst).nodup_iff.1 hnd
  cases h : l.lookup k with
  | some v => exact (lookup_of_mem_nodup hnd' (hp.subset (mem_of_lookup h))).symm
  | none =>
    cases h' : l'.lookup k with
    | none => rfl
    | some v =>
      have := lookup_of_mem_nodup hnd (hp.symm.subset (mem_of_lookup h'))
      rw [h] at this; cases this

theorem lookup_isSome_of_mem {β : Type} {k : String} {v : β} :
    ∀ {l : List (String × β)}, (k, v) ∈ l → (l.lookup k).isSome = true
  | [], h => by simp at h
  | (k', v') :: rest, h => by
    simp only [List.lookup_cons]
    split
    · rfl
    · rename_i hne
      rcases List.mem_cons.1 h with heq | hmem
      · cases heq; simp at hne
      · exact lookup_isSome_of_mem hmem

/-! ## Folds in the error monad -/

theorem foldlM_ok_append {α β : Type} (f : β → α → Except Err β) (l₁ l₂ : List α) (b r : β)
    (h : (l₁ ++ l₂).foldlM f b = .ok r) :
    ∃ mid, l₁.foldlM f b = .ok mid ∧ l₂.foldlM f mid = .ok r := by
  rw [List.foldlM_append] at h
  cases h₁ : l₁.foldlM f b with
  | error e => rw [h₁] at h; cases h
  | ok mid => rw [h₁] at h; exact ⟨mid, rfl, h⟩

theorem foldlM_ok_cons {α β : Type} (f : β → α → Except Err β) (a : α) (l : List α) (b r : β)
    (h : (a :: l).foldlM f b = .ok r) :
    ∃ mid, f b a = .ok mid ∧ l.foldlM f mid = .ok r := by
  rw [List.foldlM_cons] at h
  cases h₁ : f b a with
  | error e => rw [h₁] at h; cases h
  | ok mid => rw [h₁] at h; exact ⟨mid, rfl, h⟩

theorem foldlM_invariant {α β : Type} (f : β → α → Except Err β) (P : β → Prop) :
    ∀ (l : List α) (b r : β), P b →
      (∀ a ∈ l, ∀ b b', P b → f b a = .ok b' → P b') →
      l.foldlM f b = .ok r → P r
  | [], b, r, hb, _, h => by
    have : b = r := by simpa [List.foldlM, pure, Except.pure] using h
    exact this ▸ hb
  | a :: l, b, r, hb, hstep, h => by
    obtain ⟨mid, h₁, h₂⟩ := foldlM_ok_cons f a l b r h
    exact foldlM_invariant f P l mid r (hstep a (List.mem_cons_self _ _) b mid hb h₁)
      (fun a' ha' => hstep a' (List.mem_cons_of_mem _ ha')) h₂

theorem foldlM_error_of_mem {α β : Type} (f : β → α → Except Err β) (a : α)
    (hfail : ∀ b, ∃ e, f b a = .error e) :
    ∀ (l : List α) (b : β), a ∈ l → ∃ e, l.foldlM f b = .error e
  | [], _, h => by simp at h
  | a' :: l, b, h => by
    rw [List.foldlM_cons]
    cases h₁ : f b a' with
    | error e => exact ⟨e, rfl⟩
    | ok mid =>
      rcases List.mem_cons.1 h with heq | hmem
      · subst heq
        obtain ⟨e, he⟩ := hfail b
        rw [he] at h₁; cases h₁
      · exact foldlM_error_of_mem f a hfail l mid hmem

/-! ## The loop of `fastLoad` -/

theorem fastLoad_ok {d : ds} {pkg : Package} (h : fastLoad d = .ok pkg) :
    ∃ p, ds.Package d = .ok p ∧
      d.foldlM (fastLoadStep d) { p with API := [], Sub := [] } = .ok pkg := by
  rw [fastLoad_eq] at h
  cases hp : ds.Package d with
  | error e => rw [hp] at h; cases h
  | ok p => rw [hp] at h; exact ⟨p, rfl, h⟩

theorem Package_ok {d : ds} {meta : Msi} {N H I : String}
    (hmeta : d.lookup "#" = some (.map meta))
    (hname : meta.lookup "name" = some (.str N))
    (hhelp : meta.lookup "help" = some (.str H))
    (himport : meta.lookup "import" = some (.str I)) :
    ds.Package d = .ok { Help := H, Name := N, Import := I, API := [], Sub := [] } := by
  simp only [ds.Package, hmeta, asMap, bind, Except.bind, hname, hhelp, himport, asString,
    pure, Except.pure]

theorem fastLoadStep_inv {d : ds} {pkg pkg' : Package} {e : String × Val}
    (h : fastLoadStep d pkg e = .ok pkg') : FastLoadStepOk d pkg e pkg' := by
  obtain ⟨k, v⟩ := e
  unfold fastLoadStep at h
  by_cases hk : k = "#"
  · simp only [hk, if_true] at h
    cases h
    exact .reserved hk rfl
  · simp only [hk, if_false] at h
    cases v with
    | map f =>
      simp only [] at h
      cases hpre : hasPrefix k with
      | true =>
        simp only [hpre, if_true] at h
        cases hl : loadField (trimPrefix k) f d with
        | error err => rw [hl] at h; cases h
        | ok l =>
          rw [hl] at h
          cases h
          exact .annotated f l hk rfl hpre hl rfl
      | false =>
        simp only [hpre] at h
        cases hsub : (f.lookup "#").isSome with
        | true =>
          simp only [hsub, if_true] at h
          cases hp : fastLoad f with
          | error err => rw [hp] at h; cases h
          | ok p =>
            rw [hp] at h
            cases h
            exact .subPackage f p hk rfl hpre hsub hp rfl
        | false =>
          simp only [hsub] at h
          cases hn : loadNested (trimPrefix k) f with
          | error err => rw [hn] at h; cases h
          | ok r =>
            rw [hn] at h
            cases r with
            | none =>
              cases h
              exact .plain f hk rfl hpre hsub hn rfl
            | some nested =>
              cases hhas : fieldsHas pkg.API (trimPrefix k) with
              | true =>
                simp [hhas, bind, Except.bind, pure, Except.pure] at h
                exact .nestedKept f nested hk rfl hpre hsub hn hhas h.symm
              | false =>
                simp [hhas, bind, Except.bind, pure, Except.pure] at h
                exact .nestedNew f nested hk rfl hpre hsub hn hhas h.symm
    | _ => cases h

theorem fastLoadStep_identity {d : ds} {pkg pkg' : Package} {e : String × Val}
    (h : fastLoadStep d pkg e = .ok pkg') :
    pkg'.Name = pkg.Name ∧ pkg'.Help = pkg.Help ∧ pkg'.Import = pkg.Import := by
  cases fastLoadStep_inv h with
  | reserved _ heq => subst heq; exact ⟨rfl, rfl, rfl⟩
  | annotated _ _ _ _ _ _ heq => subst heq; exact ⟨rfl, rfl, rfl⟩
  | subPackage _ _ _ _ _ _ _ heq => subst heq; exact ⟨rfl, rfl, rfl⟩
  | nestedNew _ _ _ _ _ _ _ _ heq => subst heq; exact ⟨rfl, rfl, rfl⟩
  | nestedKept _ _ _ _ _ _ _ _ heq => subst heq; exact ⟨rfl, rfl, rfl⟩
  | plain _ _ _ _ _ _ heq => subst heq; exact ⟨rfl, rfl, rfl⟩

theorem fastLoad_identity {d : ds} {pkg : Package} (h : fastLoad d = .ok pkg) :
    ∃ p, ds.Package d = .ok p ∧ pkg.Name = p.Name ∧ pkg.Help = p.Help ∧ pkg.Import = p.Import := by
  obtain ⟨p, hp, hfold⟩ := fastLoad_ok h
  refine ⟨p, hp, ?_⟩
  exact foldlM_invariant (fastLoadStep d)
    (fun q => q.Name = p.Name ∧ q.Help = p.Help ∧ q.Import = p.Import) d
    { p with API := [], Sub := [] } pkg
    ⟨rfl, rfl, rfl⟩
    (fun a _ b b' hb hstep => by
      obtain ⟨h1, h2, h3⟩ := fastLoadStep_identity hstep
      exact ⟨h1.trans hb.1, h2.trans hb.2.1, h3.trans hb.2.2⟩)
    hfold

/-- C4. Package identity: when the reserved entry `"#"` of the root is a mapping
whose `name`, `help` and `import` are the strings `N`, `H` and `I`, `ds.Package`
returns (without failure) the package with these three strings, and every
package that `fastLoad` returns for that root carries exactly these `Name`,
`Help` and `Import`. -/
theorem package_identity (root : ds) (meta : Msi) (N H I : String)
    (hmeta : root.lookup "#" = some (.map meta))
    (hname : meta.lookup "name" = some (.str N))
    (hhelp : meta.lookup "help" = some (.str H))
    (himport : meta.lookup "import" = some (.str I)) :
    ds.Package root = .ok { Help := H, Name := N, Import := I, API := [], Sub := [] } ∧
    ∀ pkg, fastLoad root = .ok pkg → pkg.Name = N ∧ pkg.Help = H ∧ pkg.Import = I := by
  have hP := Package_ok hmeta hname hhelp himport
  refine ⟨hP, fun pkg hpkg => ?_⟩
  obtain ⟨p, hp, h1, h2, h3⟩ := fastLoad_identity hpkg
  rw [hP] at hp
  cases hp
  exact ⟨h1, h2, h3⟩

/-! ## The field resolver -/

theorem loadField_eq (name : String) (field parent : Msi) :
    loadField name field parent =
      match field.lookup "function" with
      | some ifn => do
        let m ← asMap ifn
        loadFn name m
      | none =>
        match field.lookup "object" with
        | some iobj =>
          match iobj with
          | .map m => loadObj name m parent
          | _ => throw .typeAssertion
        | none =>
          match field.lookup "value" with
          | some vobj => do
            let m ← asMap vobj
            loadValue name m
          | none =>
            throw (.panic ("field " ++ name ++ " lacking \x7bfunction | object | value\x7d")) := by
  unfold loadField
  rfl

/-- C8. MissingFieldKind: when the metadata mapping has none of the keys
`function`, `object` and `value`, `loadField` fails for every parent, with the
panic message `field <name> lacking {function | object | value}` that names the
field. -/
theorem loadField_missing_kind (name : String) (field parent : Msi)
    (hfn : field.lookup "function" = none)
    (hobj : field.lookup "object" = none)
    (hval : field.lookup "value" = none) :
    loadField name field parent =
      .error (.panic ("field " ++ name ++ " lacking \x7bfunction | object | value\x7d")) := by
  rw [loadField_eq, hfn, hobj, hval]
  rfl

/-- Witness of C8: the metadata `{help: "no kind"}` of the field `foo`. -/
theorem loadField_missing_kind_witness :
    loadField "foo" [("help", .str "no kind")] [("foo", .map [])] =
      .error (.panic "field foo lacking \x7bfunction | object | value\x7d") :=
  loadField_missing_kind "foo" [("help", .str "no kind")] [("foo", .map [])] rfl rfl rfl

theorem loadValue_error_iff (name : String) (msi : Msi) :
    (∃ e, loadValue name msi = .error e) ↔ ¬ ∃ t, msi.lookup "type" = some (.str t) := by
  unfold loadValue
  constructor
  · rintro ⟨e, he⟩ ⟨t, ht⟩
    simp [ht] at he
  · intro hno
    split
    · rename_i t ht; exact absurd ⟨t, ht⟩ hno
    · exact ⟨_, rfl⟩

theorem loadValue_error_msg (name : String) (msi : Msi) (e : Err)
    (h : loadValue name msi = .error e) :
    e = .panic ("value " ++ name ++ " lacking type information") := by
  unfold loadValue at h
  split at h
  · cases h
  · cases h; rfl

theorem loadField_value (name : String) (field vm parent : Msi)
    (hfn : field.lookup "function" = none)
    (hobj : field.lookup "object" = none)
    (hval : field.lookup "value" = some (.map vm)) :
    loadField name field parent = loadValue name vm := by
  rw [loadField_eq, hfn, hobj, hval]
  rfl

theorem fastLoadStep_annotated {d : ds} {pkg : Package} {k : String} {f : Msi}
    (hk : k ≠ "#") (hpre : hasPrefix k = true) :
    fastLoadStep d pkg (k, .map f) =
      (loadField (trimPrefix k) f d).map
        (fun l => { pkg with API := mapSet pkg.API (trimPrefix k) l }) := by
  simp only [fastLoadStep, hk, if_false, hpre, if_true]
  cases loadField (trimPrefix k) f d <;> rfl

theorem fastLoad_error_of_step {d : ds} {e : String × Val} (hmem : e ∈ d)
    (hfail : ∀ pkg, ∃ err, fastLoadStep d pkg e = .error err) :
    ∃ err, fastLoad d = .error err := by
  rw [fastLoad_eq]
  cases hp : ds.Package d with
  | error err => exact ⟨err, rfl⟩
  | ok p => exact foldlM_error_of_mem (fastLoadStep d) e hfail d _ hmem

/-- C9. MissingValueType: `loadValue` fails exactly when `msi["type"]` is absent
or is not a string, the failure is the panic `value <name> lacking type
information` that names the field, and `fastLoad` fails on every root that has
an annotated key (other than the reserved key) whose metadata has no `function`
and no `object` marker and a `value` mapping without a string `type`. -/
theorem loadValue_missing_type (name : String) (msi : Msi) (root : ds) (k : String)
    (meta vm : Msi) :
    ((∃ e, loadValue name msi = .error e) ↔ ¬ ∃ t, msi.lookup "type" = some (.str t)) ∧
    (∀ e, loadValue name msi = .error e →
      e = .panic ("value " ++ name ++ " lacking type information")) ∧
    ((k, Val.map meta) ∈ root → hasPrefix k = true → k ≠ "#" →
      meta.lookup "function" = none → meta.lookup "object" = none →
      meta.lookup "value" = some (.map vm) →
      (¬ ∃ t, vm.lookup "type" = some (.str t)) →
      ∃ e, fastLoad root = .error e) := by
  refine ⟨loadValue_error_iff name msi, loadValue_error_msg name msi, ?_⟩
  intro hmem hpre hk hfn hobj hval hty
  apply fastLoad_error_of_step hmem
  intro pkg
  obtain ⟨e, he⟩ := (loadValue_error_iff (trimPrefix k) vm).2 hty
  refine ⟨e, ?_⟩
  rw [fastLoadStep_annotated hk hpre, loadField_value _ _ _ _ hfn hobj hval, he]
  rfl

/-- C10. Degraded object: when `msi["help"]` is the string `H` and the parent has
no key `name`, `loadObj` does not fail and returns the field whose object is
`{Name: name, Help: H, Fields: empty}`; the field resolver called on an
`object` entry with this metadata returns the same field, so the visit of the
entry does not abort the decode. -/
theorem loadObj_missing_sibling (name : String) (msi parent field : Msi) (H : String)
    (hhelp : msi.lookup "help" = some (.str H))
    (hsib : parent.lookup name = none) :
    loadObj name msi parent = .ok (.mk none (some (.mk name H [])) none) ∧
    (field.lookup "function" = none → field.lookup "object" = some (.map msi) →
      loadField name field parent = .ok (.mk none (some (.mk name H [])) none)) := by
  have h : loadObj name msi parent = .ok (.mk none (some (.mk name H [])) none) := by
    rw [loadObj_eq, hhelp, hsib]
    rfl
  refine ⟨h, fun hfn hobj => ?_⟩
  rw [loadField_eq, hfn, hobj]
  exact h

theorem loadObj_congr (name : String) (msi parent parent' : Msi)
    (h : parent.lookup name = parent'.lookup name) :
    loadObj name msi parent = loadObj name msi parent' := by
  rw [loadObj_eq, loadObj_eq, h]

theorem loadField_congr (name : String) (field parent parent' : Msi)
    (h : parent.lookup name = parent'.lookup name) :
    loadField name field parent = loadField name field parent' := by
  rw [loadField_eq, loadField_eq]
  cases field.lookup "function" with
  | some ifn => rfl
  | none =>
    cases field.lookup "object" with
    | none => rfl
    | some iobj =>
      cases iobj with
      | map m => exact loadObj_congr name m parent parent' h
      | _ => rfl

theorem value_eq_of_mem_nodup {β : Type} {k : String} {v v' : β} {l : List (String × β)}
    (hnd : (l.map Prod.fst).Nodup) (h : (k, v) ∈ l) (h' : (k, v') ∈ l) : v = v' := by
  have h1 := lookup_of_mem_nodup hnd h
  have h2 := lookup_of_mem_nodup hnd h'
  rw [h1] at h2
  exact Option.some.inj h2

theorem fastLoadStep_api_kept {d : ds} {pkg pkg' : Package} {e : String × Val} {x : String}
    {fld : Field} (h : fastLoadStep d pkg e = .ok pkg') (hne : e.1 ≠ "#" ++ x)
    (hx : pkg.API.lookup x = some fld) : pkg'.API.lookup x = some fld := by
  cases fastLoadStep_inv h with
  | reserved _ heq => subst heq; exact hx
  | annotated f l _ _ hpre _ heq =>
    subst heq
    show (mapSet pkg.API (trimPrefix e.1) l).lookup x = some fld
    rw [lookup_mapSet_ne _ _ _ _ (Ne.symm (not_hasPrefix_trim_eq hpre hne))]
    exact hx
  | subPackage _ _ _ _ _ _ _ heq => subst heq; exact hx
  | nestedNew f nested _ _ _ _ _ hhas heq =>
    subst heq
    show (mapSet pkg.API (trimPrefix e.1) nested).lookup x = some fld
    have hnx : x ≠ trimPrefix e.1 := by
      rintro rfl
      simp [fieldsHas, hx] at hhas
    rw [lookup_mapSet_ne _ _ _ _ hnx]
    exact hx
  | nestedKept _ _ _ _ _ _ _ _ heq => subst heq; exact hx
  | plain _ _ _ _ _ _ heq => subst heq; exact hx

/-- C1. Top-level precedence of the explicit annotation: let `order` be any order
in which the entries of the root mapping are visited. If `fastLoad` succeeds,
then for every annotated key `"#" ++ x` of the root other than the reserved
key, the value of that key is a mapping `meta`, `loadField x meta root` returns
a field, and the final `API[x]` is that field; in particular it is never a
different object that `loadNested x root[x]` synthesizes from the unprefixed
sibling, also when that call reports `found = true`. -/
theorem fastLoad_annotated_precedence (root order : ds) (pkg : Package) (x : String)
    (hperm : order.Perm root) (hnd : (root.map Prod.fst).Nodup)
    (hok : fastLoad order = .ok pkg) (hx : x ≠ "")
    (hkey : ("#" ++ x) ∈ root.map Prod.fst) :
    ∃ meta fld, root.lookup ("#" ++ x) = some (.map meta) ∧
      loadField x meta root = .ok fld ∧
      pkg.API.lookup x = some fld ∧
      ∀ f nested, root.lookup x = some (.map f) → loadNested x f = .ok (some nested) →
        nested ≠ fld → pkg.API.lookup x ≠ some nested := by
  have hnd' : (order.map Prod.fst).Nodup := (hperm.map Prod.fst).nodup_iff.2 hnd
  obtain ⟨⟨k, v⟩, hmem, hk⟩ := List.mem_map.1 hkey
  simp only at hk
  subst hk
  have hmemo : ("#" ++ x, v) ∈ order := hperm.symm.subset hmem
  obtain ⟨l₁, l₂, hsplit⟩ := List.append_of_mem hmemo
  obtain ⟨p, _, hfold⟩ := fastLoad_ok hok
  have hfold' : (l₁ ++ ("#" ++ x, v) :: l₂).foldlM (fastLoadStep order)
      { p with API := [], Sub := [] } = .ok pkg := by
    rw [← hsplit]; exact hfold
  obtain ⟨mid, _, hrest⟩ := foldlM_ok_append _ _ _ _ _ hfold'
  obtain ⟨mid', hstep, htail⟩ := foldlM_ok_cons _ _ _ _ _ hrest
  have hres : ("#" ++ x) ≠ "#" := marker_ne_reserved hx
  have hl₂ : ∀ e ∈ l₂, e.1 ≠ "#" ++ x := by
    intro e he heq
    rw [hsplit, List.map_append, List.map_cons] at hnd'
    have := (List.nodup_cons.1 (List.nodup_append.1 hnd').2.1).1
    exact this (List.mem_map.2 ⟨e, he, heq⟩)
  cases fastLoadStep_inv hstep with
  | reserved hk _ => exact absurd hk hres
  | annotated f l _ hv _ hl heq =>
    simp only at hv
    subst hv
    rw [trimPrefix_marker] at hl heq
    have hfld : pkg.API.lookup x = some l := by
      refine foldlM_invariant (fastLoadStep order) (fun q => q.API.lookup x = some l) l₂ mid' pkg
        ?_ (fun a ha b b' hb hs => fastLoadStep_api_kept hs (hl₂ a ha) hb) htail
      subst heq
      exact lookup_mapSet_self _ _ _
    refine ⟨f, l, lookup_of_mem_nodup hnd hmem, ?_, hfld, ?_⟩
    · rw [← hl]
      exact loadField_congr x f root order (lookup_perm hperm.symm hnd x)
    · intro f' nested _ _ hne heq'
      rw [hfld] at heq'
      exact hne (Option.some.inj heq').symm
  | subPackage _ _ _ _ hpre _ _ _ => simp [hasPrefix_marker] at hpre
  | nestedNew _ _ _ _ hpre _ _ _ _ => simp [hasPrefix_marker] at hpre
  | nestedKept _ _ _ _ hpre _ _ _ _ => simp [hasPrefix_marker] at hpre
  | plain _ _ _ hpre _ _ _ => simp [hasPrefix_marker] at hpre

/-! ## Sub-packages -/

theorem Package_inv {d : ds} {p : Package} (h : ds.Package d = .ok p) :
    ∃ meta, d.lookup "#" = some (.map meta) ∧
      meta.lookup "name" = some (.str p.Name) ∧
      meta.lookup "help" = some (.str p.Help) ∧
      meta.lookup "import" = some (.str p.Import) := by
  unfold ds.Package at h
  cases hh : d.lookup "#" with
  | none => rw [hh] at h; cases h
  | some hash =>
    rw [hh] at h
    cases hash with
    | map meta =>
      refine ⟨meta, rfl, ?_⟩
      simp only [asMap, bind, Except.bind] at h
      cases h1 : meta.lookup "help" with
      | none => simp [h1, asString] at h
      | some vh =>
        cases vh with
        | str sh =>
          cases h2 : meta.lookup "name" with
          | none => simp [h1, h2, asString] at h
          | some vn =>
            cases vn with
            | str sn =>
              cases h3 : meta.lookup "import" with
              | none => simp [h1, h2, h3, asString] at h
              | some vi =>
                cases vi with
                | str si =>
                  simp [h1, h2, h3, asString, pure, Except.pure] at h
                  subst h
                  exact ⟨rfl, rfl, rfl⟩
                | _ => simp [h1, h2, h3, asString] at h
            | _ => simp [h1, h2, asString] at h
        | _ => simp [h1, asString] at h
    | _ => simp [asMap, bind, Except.bind] at h

theorem fastLoad_declared_name {m : ds} {p : Package} (h : fastLoad m = .ok p) :
    ∃ meta, m.lookup "#" = some (.map meta) ∧ meta.lookup "name" = some (.str p.Name) := by
  obtain ⟨p0, hp0, hn, _, _⟩ := fastLoad_identity h
  obtain ⟨meta, hmeta, hname, _, _⟩ := Package_inv hp0
  exact ⟨meta, hmeta, hn ▸ hname⟩

theorem fastLoadStep_sub_isSome {d : ds} {pkg pkg' : Package} {e : String × Val} {n : String}
    (h : fastLoadStep d pkg e = .ok pkg') (hn : (pkg.Sub.lookup n).isSome = true) :
    (pkg'.Sub.lookup n).isSome = true := by
  cases fastLoadStep_inv h with
  | reserved _ heq => subst heq; exact hn
  | annotated _ _ _ _ _ _ heq => subst heq; exact hn
  | subPackage f p _ _ _ _ _ heq =>
    subst heq
    show ((mapSet pkg.Sub p.Name p).lookup n).isSome = true
    by_cases hnp : n = p.Name
    · rw [hnp, lookup_mapSet_self]; rfl
    · rw [lookup_mapSet_ne _ _ _ _ hnp]; exact hn
  | nestedNew _ _ _ _ _ _ _ _ heq => subst heq; exact hn
  | nestedKept _ _ _ _ _ _ _ _ heq => subst heq; exact hn
  | plain _ _ _ _ _ _ heq => subst heq; exact hn

theorem fastLoadStep_sub_kept {d : ds} {pkg pkg' : Package} {e : String × Val} {n : String}
    {q : Package} (h : fastLoadStep d pkg e = .ok pkg')
    (hother : ∀ f p, e.2 = .map f → hasPrefix e.1 = false → (f.lookup "#").isSome = true →
      fastLoad f = .ok p → p.Name ≠ n)
    (hn : pkg.Sub.lookup n = some q) : pkg'.Sub.lookup n = some q := by
  cases fastLoadStep_inv h with
  | reserved _ heq => subst heq; exact hn
  | annotated _ _ _ _ _ _ heq => subst heq; exact hn
  | subPackage f p _ hv hpre hsub hp heq =>
    subst heq
    show (mapSet pkg.Sub p.Name p).lookup n = some q
    rw [lookup_mapSet_ne _ _ _ _ (Ne.symm (hother f p hv hpre hsub hp))]
    exact hn
  | nestedNew _ _ _ _ _ _ _ _ heq => subst heq; exact hn
  | nestedKept _ _ _ _ _ _ _ _ heq => subst heq; exact hn
  | plain _ _ _ _ _ _ heq => subst heq; exact hn

theorem fastLoadStep_subFrom {d : ds} {pkg pkg' : Package} {e : String × Val}
    (h : fastLoadStep d pkg e = .ok pkg') (he : e ∈ d) (hinv : SubFrom d pkg) :
    SubFrom d pkg' := by
  cases fastLoadStep_inv h with
  | reserved _ heq => subst heq; exact hinv
  | annotated _ _ _ _ _ _ heq => subst heq; exact hinv
  | subPackage f p _ hv hpre hsub hp heq =>
    subst heq
    intro n q hq
    change (mapSet pkg.Sub p.Name p).lookup n = some q at hq
    by_cases hnp : n = p.Name
    · rw [hnp, lookup_mapSet_self] at hq
      cases hq
      refine ⟨e.1, f, ?_, hpre, hsub, hp, hnp.symm⟩
      rw [← hv]; exact he
    · rw [lookup_mapSet_ne _ _ _ _ hnp] at hq
      exact hinv n q hq
  | nestedNew _ _ _ _ _ _ _ _ heq => subst heq; exact hinv
  | nestedKept _ _ _ _ _ _ _ _ heq => subst heq; exact hinv
  | plain _ _ _ _ _ _ heq => subst heq; exact hinv

theorem fastLoadStep_api_none {d : ds} {pkg pkg' : Package} {e : String × Val} {k : String}
    (h : fastLoadStep d pkg e = .ok pkg') (hann : e.1 ≠ "#" ++ k)
    (hsib : ∀ f, e.1 = k → e.2 = .map f → (f.lookup "#").isSome = true)
    (hk : pkg.API.lookup k = none) : pkg'.API.lookup k = none := by
  cases fastLoadStep_inv h with
  | reserved _ heq => subst heq; exact hk
  | annotated f l _ _ hpre _ heq =>
    subst heq
    show (mapSet pkg.API (trimPrefix e.1) l).lookup k = none
    rw [lookup_mapSet_ne _ _ _ _ (Ne.symm (not_hasPrefix_trim_eq hpre hann))]
    exact hk
  | subPackage _ _ _ _ _ _ _ heq => subst heq; exact hk
  | nestedNew f nested _ hv hpre hsub _ _ heq =>
    subst heq
    show (mapSet pkg.API (trimPrefix e.1) nested).lookup k = none
    have hne : k ≠ trimPrefix e.1 := by
      rw [trimPrefix_of_not hpre]
      intro hke
      have := hsib f hke.symm hv
      rw [hsub] at this
      cases this
    rw [lookup_mapSet_ne _ _ _ _ hne]
    exact hk
  | nestedKept _ _ _ _ _ _ _ _ heq => subst heq; exact hk
  | plain _ _ _ _ _ _ heq => subst heq; exact hk

theorem fastLoadStep_sub_api {d : ds} {pkg pkg' : Package} {k : String} {m : Msi}
    (h : fastLoadStep d pkg (k, Val.map m) = .ok pkg') (hpre : hasPrefix k = false)
    (hsub : (m.lookup "#").isSome = true) : pkg'.API = pkg.API := by
  cases fastLoadStep_inv h with
  | reserved _ heq => subst heq; rfl
  | annotated _ _ _ _ hpre' _ _ => simp only at hpre'; rw [hpre] at hpre'; cases hpre'
  | subPackage _ _ _ _ _ _ _ heq => subst heq; rfl
  | nestedNew f _ _ hv _ hsub' _ _ _ =>
    simp only at hv; cases hv; rw [hsub] at hsub'; cases hsub'
  | nestedKept _ _ _ _ _ _ _ _ heq => subst heq; rfl
  | plain _ _ _ _ _ _ heq => subst heq; rfl

/-- C5. Sub-package detection: let `fastLoad` decode the root, and let `k` be an
unprefixed key whose value `m` is a mapping that contains the reserved key.
Then `m` decodes to a package `p` whose name `N` is the one `m["#"]["name"]`
declares, and `Sub` has an entry under `N`; when no other sub-package entry of
the root declares the name `N`, that entry is `p`; every entry of `Sub` is
stored under the name its package declares (so there is one under `k` only
when some sub-package declares the name `k`); and the entry adds nothing to
`API`: its iteration of the loop leaves `API` as it is, and without an annotated
key `"#" ++ k` there is no `API[k]`. -/
theorem fastLoad_sub_package (root : ds) (pkg : Package) (k : String) (m : Msi)
    (hnd : (root.map Prod.fst).Nodup)
    (hok : fastLoad root = .ok pkg)
    (hmem : (k, Val.map m) ∈ root)
    (hpre : hasPrefix k = false)
    (hsub : (m.lookup "#").isSome = true) :
    ∃ p meta N, fastLoad m = .ok p ∧ m.lookup "#" = some (.map meta) ∧
      meta.lookup "name" = some (.str N) ∧ p.Name = N ∧
      (pkg.Sub.lookup N).isSome = true ∧
      ((∀ k' m' meta', (k', Val.map m') ∈ root → k' ≠ k → hasPrefix k' = false →
          m'.lookup "#" = some (.map meta') → meta'.lookup "name" ≠ some (.str N)) →
        pkg.Sub.lookup N = some p) ∧
      (∀ n q, pkg.Sub.lookup n = some q →
        ∃ k' m', (k', Val.map m') ∈ root ∧ hasPrefix k' = false ∧
          (m'.lookup "#").isSome = true ∧ fastLoad m' = .ok q ∧ q.Name = n) ∧
      (∀ acc acc', fastLoadStep root acc (k, Val.map m) = .ok acc' → acc'.API = acc.API) ∧
      (("#" ++ k) ∉ root.map Prod.fst → pkg.API.lookup k = none) := by
  obtain ⟨l₁, l₂, hsplit⟩ := List.append_of_mem hmem
  obtain ⟨p0, _, hfold⟩ := fastLoad_ok hok
  have hfold' : (l₁ ++ (k, Val.map m) :: l₂).foldlM (fastLoadStep root)
      { p0 with API := [], Sub := [] } = .ok pkg := by
    rw [← hsplit]; exact hfold
  obtain ⟨mid, _, hrest⟩ := foldlM_ok_append _ _ _ _ _ hfold'
  obtain ⟨mid', hstep, htail⟩ := foldlM_ok_cons _ _ _ _ _ hrest
  have hl₂ : ∀ e ∈ l₂, e.1 ≠ k := by
    intro e he heq
    rw [hsplit, List.map_append, List.map_cons] at hnd
    have := (List.nodup_cons.1 (List.nodup_append.1 hnd).2.1).1
    exact this (List.mem_map.2 ⟨e, he, heq⟩)
  have hl₂mem : ∀ e ∈ l₂, e ∈ root := by
    intro e he
    rw [hsplit]
    exact List.mem_append_right _ (List.mem_cons_of_mem _ he)
  have hkres : k ≠ "#" := by
    rintro rfl
    exact absurd hpre (by decide)
  cases fastLoadStep_inv hstep with
  | reserved hk _ => exact absurd hk hkres
  | annotated _ _ _ _ hpre' _ _ => simp only at hpre'; rw [hpre] at hpre'; cases hpre'
  | nestedNew f _ _ hv _ hsub' _ _ _ =>
    simp only at hv; cases hv; rw [hsub] at hsub'; cases hsub'
  | nestedKept f _ _ hv _ hsub' _ _ _ =>
    simp only at hv; cases hv; rw [hsub] at hsub'; cases hsub'
  | plain f _ hv _ hsub' _ _ =>
    simp only at hv; cases hv; rw [hsub] at hsub'; cases hsub'
  | subPackage f p _ hv _ _ hp heq =>
    simp only at hv
    cases hv
    obtain ⟨meta, hmeta, hname⟩ := fastLoad_declared_name hp
    have hmid' : mid'.Sub.lookup p.Name = some p := by
      subst heq; exact lookup_mapSet_self _ _ _
    refine ⟨p, meta, p.Name, hp, hmeta, hname, rfl, ?_, ?_, ?_, ?_, ?_⟩
    · exact foldlM_invariant (fastLoadStep root) (fun q => (q.Sub.lookup p.Name).isSome = true)
        l₂ mid' pkg (by simp only [hmid']; rfl)
        (fun a _ b b' hb hs => fastLoadStep_sub_isSome hs hb) htail
    · intro hother
      refine foldlM_invariant (fastLoadStep root) (fun q => q.Sub.lookup p.Name = some p)
        l₂ mid' pkg hmid' (fun a ha b b' hb hs => fastLoadStep_sub_kept hs ?_ hb) htail
      intro f' p' hv' hpre' _ hp' hnm
      obtain ⟨meta', hmeta', hname'⟩ := fastLoad_declared_name hp'
      have hamem : (a.1, Val.map f') ∈ root := by
        rw [← hv']; exact hl₂mem a ha
      exact hother a.1 f' meta' hamem (hl₂ a ha) hpre' hmeta' (hnm ▸ hname')
    · exact foldlM_invariant (fastLoadStep root) (SubFrom root) root
        { p0 with API := [], Sub := [] } pkg
        (fun n q hq => by simp at hq)
        (fun a ha b b' hb hs => fastLoadStep_subFrom hs ha hb) hfold
    · intro acc acc' hacc
      exact fastLoadStep_sub_api hacc hpre hsub
    · intro hno
      refine foldlM_invariant (fastLoadStep root) (fun q => q.API.lookup k = none) root
        { p0 with API := [], Sub := [] } pkg rfl
        (fun a ha b b' hb hs => fastLoadStep_api_none hs ?_ ?_ hb) hfold
      · intro heq
        exact hno (List.mem_map.2 ⟨a, ha, heq⟩)
      · intro f' hak hv'
        have hamem : (k, Val.map f') ∈ root := by
          rw [← hak, ← hv']; exact ha
        have := value_eq_of_mem_nodup hnd hamem hmem
        cases this
        exact hsub

theorem loadNested_of_fold {name : String} {msi : Msi} {fields : Fields}
    (h : msi.foldlM (loadNestedStep msi) (([] : Fields), false) = .ok (fields, false)) :
    loadNested name msi = .ok none := by
  rw [loadNested_eq, h]; rfl

theorem loadNested_of_fold_error {name : String} {msi : Msi} {e : Err}
    (h : msi.foldlM (loadNestedStep msi) (([] : Fields), false) = .error e) :
    loadNested name msi = .error e := by
  rw [loadNested_eq, h]; rfl

theorem loadNestedStep_unprefixed {msi f : Msi} {k : String} {acc : Fields × Bool}
    (hpre : hasPrefix k = false) (hn : loadNested k f = .ok none) :
    loadNestedStep msi acc (k, .map f) = .ok acc := by
  simp only [loadNestedStep, hpre, hn]
  rfl

theorem loadNestedStep_unprefixed_error {msi f : Msi} {k : String} {acc : Fields × Bool}
    {e : Err} (hpre : hasPrefix k = false) (hn : loadNested k f = .error e) :
    loadNestedStep msi acc (k, .map f) = .error e := by
  simp only [loadNestedStep, hpre, hn]
  rfl

theorem unmarked_subtree_aux (n : Nat) :
    ∀ (name : String) (msi : Msi), sizeOf msi ≤ n → markedEntries msi = false →
      loadNested name msi = if mapsOnlyEntries msi then .ok none else .error .typeAssertion := by
  induction n with
  | zero =>
    intro name msi hsz
    cases msi with
    | nil => intro _; rw [loadNested_eq]; rfl
    | cons e rest => simp at hsz
  | succ n ih =>
    intro name msi hsz hclean
    have key : ∀ (l : Msi) (acc : Fields), (∀ e ∈ l, e ∈ msi) → markedEntries l = false →
        l.foldlM (loadNestedStep msi) (acc, false) =
          if mapsOnlyEntries l then .ok (acc, false) else .error .typeAssertion := by
      intro l
      induction l with
      | nil => intro acc _ _; rfl
      | cons e rest ihl =>
        intro acc hsub hcl
        obtain ⟨k, v⟩ := e
        simp only [markedEntries, Bool.or_eq_false_iff] at hcl
        obtain ⟨⟨hpre, hmv⟩, hrest⟩ := hcl
        have hrest' := ihl acc (fun e he => hsub e (List.mem_cons_of_mem _ he)) hrest
        rw [List.foldlM_cons]
        cases v with
        | map f =>
          have hlt : sizeOf f ≤ n := by
            have := sizeOf_lt_of_mem_map (hsub _ (List.mem_cons_self _ _))
            omega
          have hf := ih k f hlt (by simpa [markedVal] using hmv)
          cases hmo : mapsOnlyEntries f with
          | true =>
            rw [hmo] at hf
            rw [loadNestedStep_unprefixed hpre hf]
            simp only [mapsOnlyEntries, mapsOnlyVal, hmo, Bool.true_and]
            exact hrest'
          | false =>
            rw [hmo] at hf
            rw [loadNestedStep_unprefixed_error hpre hf]
            simp only [mapsOnlyEntries, mapsOnlyVal, hmo, Bool.false_and]
            rfl
        | _ =>
          simp only [mapsOnlyEntries, mapsOnlyVal, Bool.false_and]
          rfl
    have hfold := key msi [] (fun e he => he) hclean
    cases hmo : mapsOnlyEntries msi with
    | true =>
      rw [hmo] at hfold
      exact loadNested_of_fold hfold
    | false =>
      rw [hmo] at hfold
      exact loadNested_of_fold_error hfold

/-- C7 (amended). Not-found is a normal outcome: for a subtree without any
marker-prefixed key at any depth, `loadNested` returns `(nil, false)` without
failing when every value at every depth of the subtree is a mapping, and it
fails with a type assertion panic when some value, at some depth, is a scalar
or an array. -/
theorem loadNested_unmarked (name : String) (subtree : Msi)
    (hclean : markedEntries subtree = false) :
    loadNested name subtree =
      if mapsOnlyEntries subtree then .ok none else .error .typeAssertion :=
  unmarked_subtree_aux (sizeOf subtree) name subtree (Nat.le_refl _) hclean

/-! ## The loaders on the concrete inputs -/

theorem exInner_nested (n : String) : loadNested n exInner = .ok (some (exNested n)) := by
  simp [exInner, exNested, exValue, exField,
    loadNested_eq, loadNestedStep, loadField_eq, loadValue, helpOrEmpty, defaultOf, mapSet,
    hasPrefix, trimPrefix, asMap, bind, Except.bind, pure, Except.pure, List.lookup]

theorem exValue_field (n : String) (parent : Msi) :
    loadField n [("value", .map [("type", .str "string")])] parent = .ok (exField n) := by
  simp [exField, loadField_eq, loadValue, helpOrEmpty, defaultOf, asMap, bind, Except.bind,
    List.lookup]

theorem exNested_ne_exAnnotated : exNested "x" ≠ exAnnotated := by
  simp [exNested, exAnnotated]

theorem exInner_fold :
    exInner.foldlM (loadObjStep exInner) ([] : Fields) = .ok [("y", exField "y")] := by
  simp [loadObjStep, exInner, exValue, exValue_field, mapSet, hasPrefix, trimPrefix, bind,
    Except.bind, pure, Except.pure]

theorem exObject_field (childs : Msi) (h : childs.lookup "x" = some (.map exInner)) :
    loadField "x" [("object", .map [("help", .str "hx")])] childs = .ok exAnnotated := by
  rw [loadField_eq]
  simp [List.lookup]
  rw [loadObj_eq]
  simp [asString, List.lookup, h, exInner_fold, exAnnotated, bind, Except.bind, pure,
    Except.pure]

theorem exPrefix_facts :
    trimPrefix "#x" = "x" ∧ trimPrefix "x" = "x" ∧ hasPrefix "#x" = true ∧
      hasPrefix "x" = false := by
  decide

theorem exChildren_sibling : exChildren.lookup "x" = some (.map exInner) := by
  simp [exChildren, List.lookup]

theorem exChildrenRev_sibling : exChildrenRev.lookup "x" = some (.map exInner) := by
  simp [exChildrenRev, List.lookup]

theorem exSub_fastLoad (h : String) :
    fastLoad [("#", .map [("name", .str "p"), ("help", .str h), ("import", .str "i")])] =
      .ok (exSubPkg h) := by
  simp [fastLoad_eq, ds.Package, asMap, asString, fastLoadStep, exSubPkg, bind, Except.bind,
    pure, Except.pure, List.lookup]

theorem exOrder_fastLoad : fastLoad exOrder =
    .ok { Help := "desc", Name := "k8s", Import := "k.libsonnet",
          API := [("x", exField "x")], Sub := [] } := by
  rw [fastLoad_eq]
  simp [exOrder, ds.Package, exMeta, asMap, asString, fastLoadStep, exValue, exInner_nested,
    exValue_field, mapSet, fieldsHas, hasPrefix, trimPrefix, bind, Except.bind, pure,
    Except.pure, List.lookup]

theorem exRootLib_fastLoad : fastLoad exRootLib =
    .ok { Help := "desc", Name := "k8s", Import := "k.libsonnet",
          API := [], Sub := [("p", exSubPkg "h1")] } := by
  rw [fastLoad_eq]
  simp [exRootLib, ds.Package, exMeta, exSub, asMap, asString, fastLoadStep, exSub_fastLoad,
    mapSet, hasPrefix, trimPrefix, bind, Except.bind, pure, Except.pure, List.lookup]
  rfl

theorem exRootObj_field (childs : Msi) (fs : Fields)
    (h : childs.foldlM (loadObjStep childs) ([] : Fields) = .ok fs) :
    loadField "o" [("object", .map [("help", .str "h")])] (exRootObj childs) =
      .ok (.mk none (some (.mk "o" "h" fs)) none) := by
  rw [loadField_eq]
  simp [List.lookup]
  rw [loadObj_eq]
  simp [exRootObj, asString, List.lookup, h, bind, Except.bind, pure, Except.pure]

theorem exChildren_fold :
    exChildren.foldlM (loadObjStep exChildren) ([] : Fields) = .ok [("x", exNested "x")] := by
  have h := exObject_field exChildren exChildren_sibling
  unfold exChildren at h ⊢
  simp only [exObject] at h ⊢
  simp only [List.foldlM_cons, List.foldlM_nil, loadObjStep, exPrefix_facts.1, exPrefix_facts.2.1,
    exPrefix_facts.2.2.1, exPrefix_facts.2.2.2]
  simp only [h, exInner_nested]
  simp [mapSet, bind, Except.bind, pure, Except.pure]

theorem exChildrenRev_fold :
    exChildrenRev.foldlM (loadObjStep exChildrenRev) ([] : Fields) = .ok [("x", exAnnotated)] := by
  have h := exObject_field exChildrenRev exChildrenRev_sibling
  unfold exChildrenRev at h ⊢
  simp only [exObject] at h ⊢
  simp only [List.foldlM_cons, List.foldlM_nil, loadObjStep, exPrefix_facts.1, exPrefix_facts.2.1,
    exPrefix_facts.2.2.1, exPrefix_facts.2.2.2]
  simp only [h, exInner_nested]
  simp [mapSet, bind, Except.bind, pure, Except.pure]

theorem exChildren_lookup : exChildren.lookup "#" = none := by
  simp [exChildren, List.lookup]

theorem exChildren_nested (n : String) : loadNested n exChildren =
      .ok (some (.mk none (some (.mk n "" [("x", exNested "x")])) none)) := by
  rw [loadNested_eq]
  have h := exObject_field exChildren exChildren_sibling
  unfold exChildren at h ⊢
  simp only [exObject] at h ⊢
  simp only [List.foldlM_cons, List.foldlM_nil, loadNestedStep, exPrefix_facts.1, exPrefix_facts.2.1,
    exPrefix_facts.2.2.1, exPrefix_facts.2.2.2]
  simp only [h, exInner_nested]
  simp [mapSet, bind, Except.bind, pure, Except.pure]

theorem exRootObj_fastLoad (childs : Msi) (fs : Fields) (r : Option Field)
    (h : childs.foldlM (loadObjStep childs) ([] : Fields) = .ok fs)
    (hl : childs.lookup "#" = none) (hn : loadNested "o" childs = .ok r) :
    fastLoad (exRootObj childs) =
      .ok { Help := "desc", Name := "k8s", Import := "k.libsonnet",
            API := [("o", .mk none (some (.mk "o" "h" fs)) none)],
            Sub := [] } := by
  have hf := exRootObj_field childs fs h
  rw [fastLoad_eq]
  unfold exRootObj exMeta at hf ⊢
  have t1 : trimPrefix "#o" = "o" := by decide
  have t2 : trimPrefix "o" = "o" := by decide
  have p1 : hasPrefix "#o" = true := by decide
  have p2 : hasPrefix "o" = false := by decide
  cases r <;>
  simp [ds.Package, asMap, asString, fastLoadStep, hf, hl, hn, mapSet, fieldsHas,
    t1, t2, p1, p2, bind, Except.bind, pure, Except.pure, List.lookup]

theorem exChildrenRev_lookup : exChildrenRev.lookup "#" = none := by
  simp [exChildrenRev, List.lookup]

theorem exChildrenRev_nested (n : String) : loadNested n exChildrenRev =
      .ok (some (.mk none (some (.mk n "" [("x", exAnnotated)])) none)) := by
  rw [loadNested_eq]
  have h := exObject_field exChildrenRev exChildrenRev_sibling
  unfold exChildrenRev at h ⊢
  simp only [exObject] at h ⊢
  simp only [List.foldlM_cons, List.foldlM_nil, loadNestedStep, exPrefix_facts.1, exPrefix_facts.2.1,
    exPrefix_facts.2.2.1, exPrefix_facts.2.2.2]
  simp only [h, exInner_nested]
  simp [mapSet, bind, Except.bind, pure, Except.pure]

theorem exObj_load (childs : Msi) (fs : Fields)
    (h : childs.foldlM (loadObjStep childs) ([] : Fields) = .ok fs) :
    loadObj "o" [("help", .str "h")] [("o", .map childs)] =
      .ok (.mk none (some (.mk "o" "h" fs)) none) := by
  rw [loadObj_eq]
  simp [asString, List.lookup, h, bind, Except.bind, pure, Except.pure]

theorem exRootSubs_fastLoad : fastLoad exRootSubs =
    .ok { Help := "desc", Name := "k8s", Import := "k.libsonnet",
          API := [], Sub := [("p", exSubPkg "h2")] } := by
  rw [fastLoad_eq]
  simp [exRootSubs, ds.Package, exMeta, exSub, asMap, asString, fastLoadStep, exSub_fastLoad,
    mapSet, hasPrefix, trimPrefix, bind, Except.bind, pure, Except.pure, List.lookup]
  simp [exSubPkg]

theorem exRootSubsRev_fastLoad : fastLoad exRootSubsRev =
    .ok { Help := "desc", Name := "k8s", Import := "k.libsonnet",
          API := [], Sub := [("p", exSubPkg "h1")] } := by
  rw [fastLoad_eq]
  simp [exRootSubsRev, ds.Package, exMeta, exSub, asMap, asString, fastLoadStep, exSub_fastLoad,
    mapSet, hasPrefix, trimPrefix, bind, Except.bind, pure, Except.pure, List.lookup]
  simp [exSubPkg]

/-- C2 (failing input). The decode depends on the visiting order. Two orders of
the children of the annotated object `o` give packages whose `API["o"]` differ:
its field `x` keeps the help text `hx` of the annotation in one order and is
the object without help text that `loadNested` synthesizes in the other (the
unguarded write in `loadObj`). Two orders of a root with two sub-packages that
declare one name give packages whose `Sub` differ. -/
theorem decode_order_dependent :
    exChildren.Perm exChildrenRev ∧
    fastLoad (exRootObj exChildren) =
      .ok { Help := "desc", Name := "k8s", Import := "k.libsonnet",
            API := [("o", .mk none (some (.mk "o" "h" [("x", exNested "x")])) none)],
            Sub := [] } ∧
    fastLoad (exRootObj exChildrenRev) =
      .ok { Help := "desc", Name := "k8s", Import := "k.libsonnet",
            API := [("o", .mk none (some (.mk "o" "h" [("x", exAnnotated)])) none)],
            Sub := [] } ∧
    fastLoad (exRootObj exChildren) ≠ fastLoad (exRootObj exChildrenRev) ∧
    exRootSubs.Perm exRootSubsRev ∧
    fastLoad exRootSubs =
      .ok { Help := "desc", Name := "k8s", Import := "k.libsonnet",
            API := [], Sub := [("p", exSubPkg "h2")] } ∧
    fastLoad exRootSubsRev =
      .ok { Help := "desc", Name := "k8s", Import := "k.libsonnet",
            API := [], Sub := [("p", exSubPkg "h1")] } ∧
    fastLoad exRootSubs ≠ fastLoad exRootSubsRev := by
  have h1 := exRootObj_fastLoad exChildren _ _ exChildren_fold exChildren_lookup
    (exChildren_nested "o")
  have h2 := exRootObj_fastLoad exChildrenRev _ _ exChildrenRev_fold exChildrenRev_lookup
    (exChildrenRev_nested "o")
  refine ⟨List.Perm.swap _ _ _, h1, h2, ?_, List.Perm.cons _ (List.Perm.swap _ _ _),
    exRootSubs_fastLoad, exRootSubsRev_fastLoad, ?_⟩
  · rw [h1, h2]
    simp [exNested, exAnnotated]
  · rw [exRootSubs_fastLoad, exRootSubsRev_fastLoad]
    simp [exSubPkg]

/-- C3 (failing input). In `loadObj` and in `loadNested` the write of the
unprefixed sibling is not guarded: on the children `"#x"`, `"x"` visited in this
order, `Fields["x"]` is the object synthesized by `loadNested` (without the help
text), not the field that `loadField` builds from the annotation; visited in
the other order it is the annotated field. -/
theorem nested_precedence_fails :
    exChildren.lookup "#x" = some (.map [("object", .map [("help", .str "hx")])]) ∧
    exChildren.lookup "x" = some (.map exInner) ∧
    loadField "x" [("object", .map [("help", .str "hx")])] exChildren = .ok exAnnotated ∧
    loadNested "x" exInner = .ok (some (exNested "x")) ∧
    exNested "x" ≠ exAnnotated ∧
    loadObj "o" [("help", .str "h")] [("o", .map exChildren)] =
      .ok (.mk none (some (.mk "o" "h" [("x", exNested "x")])) none) ∧
    loadNested "o" exChildren =
      .ok (some (.mk none (some (.mk "o" "" [("x", exNested "x")])) none)) ∧
    loadObj "o" [("help", .str "h")] [("o", .map exChildrenRev)] =
      .ok (.mk none (some (.mk "o" "h" [("x", exAnnotated)])) none) ∧
    loadNested "o" exChildrenRev =
      .ok (some (.mk none (some (.mk "o" "" [("x", exAnnotated)])) none)) :=
  ⟨by simp [exChildren, exObject, List.lookup], exChildren_sibling,
    exObject_field _ exChildren_sibling, exInner_nested _, exNested_ne_exAnnotated,
    exObj_load _ _ exChildren_fold, exChildren_nested _, exObj_load _ _ exChildrenRev_fold,
    exChildrenRev_nested _⟩

theorem exDeep_nested (n : String) : loadNested n exDeep = .ok none := by
  rw [loadNested_eq]
  simp [loadNestedStep, exDeep, exInner_nested, mapSet, hasPrefix, trimPrefix, bind,
    Except.bind, pure, Except.pure]

theorem exDeepMixed_nested (n : String) : loadNested n exDeepMixed =
    .ok (some (.mk none (some (.mk n "" [("z", exField "z"), ("a", exNested "a")])) none)) := by
  rw [loadNested_eq]
  have t : trimPrefix "#z" = "z" ∧ trimPrefix "a" = "a" ∧ hasPrefix "#z" = true ∧
      hasPrefix "a" = false := by decide
  simp only [exDeepMixed, exValue, List.foldlM_cons, List.foldlM_nil, loadNestedStep, t.1,
    t.2.1, t.2.2.1, t.2.2.2]
  simp only [exValue_field, exInner_nested]
  simp [mapSet, bind, Except.bind, pure, Except.pure]

/-- C6 (failing input). A marker-prefixed key that lies only below an unprefixed
child does not make the subtree found: `loadNested` finds the child `a` of
`exDeep` (it holds the annotated key `"#y"`), stores its object, and still
returns `(nil, false)` for `exDeep`. The object of the child is part of the
result once the subtree has an annotated key of its own (`exDeepMixed`). -/
theorem loadNested_deep_marker_lost :
    markedEntries exDeep = true ∧
    loadNested "a" exInner = .ok (some (exNested "a")) ∧
    loadNested "n" exDeep = .ok none ∧
    loadNested "n" exDeepMixed =
      .ok (some (.mk none (some (.mk "n" "" [("z", exField "z"), ("a", exNested "a")])) none)) :=
  ⟨by decide, exInner_nested _, exDeep_nested _, exDeepMixed_nested _⟩

/-- C7 (counterexample). The data-only mapping `{"a": "unused"}` has no
marker-prefixed key, and `loadNested` fails on it with a type assertion panic
instead of returning `(nil, false)`. -/
theorem loadNested_scalar_leaf_fails :
    markedEntries [("a", .str "unused")] = false ∧
    loadNested "n" [("a", .str "unused")] = .error .typeAssertion ∧
    loadNested "n" [("a", .str "unused")] ≠ .ok none := by
  have h : loadNested "n" [("a", .str "unused")] = .error .typeAssertion := by
    rw [loadNested_eq]
    simp [loadNestedStep, bind, Except.bind]
  refine ⟨by decide, h, ?_⟩
  rw [h]
  simp

/-- Witness of C7: a data-only subtree made of mappings. -/
theorem loadNested_unmarked_witness :
    loadNested "n" [("a", .map [("b", .map [])]), ("c", .map [])] = .ok none :=
  loadNested_unmarked "n" [("a", .map [("b", .map [])]), ("c", .map [])] (by decide)

/-- Witness of C1: the root `exRoot` visited in the order `exOrder`, where the
unprefixed sibling `x` is found by `loadNested` and is visited first. -/
theorem fastLoad_annotated_precedence_witness :
    fastLoad exOrder =
      .ok { Help := "desc", Name := "k8s", Import := "k.libsonnet",
            API := [("x", exField "x")], Sub := [] } ∧
    loadNested "x" exInner = .ok (some (exNested "x")) ∧
    ∃ meta fld, exRoot.lookup ("#" ++ "x") = some (.map meta) ∧
      loadField "x" meta exRoot = .ok fld ∧
      (([("x", exField "x")] : Fields).lookup "x" = some fld) ∧
      ∀ f nested, exRoot.lookup "x" = some (.map f) → loadNested "x" f = .ok (some nested) →
        nested ≠ fld → ([("x", exField "x")] : Fields).lookup "x" ≠ some nested :=
  ⟨exOrder_fastLoad, exInner_nested "x",
    fastLoad_annotated_precedence exRoot exOrder _ "x"
      (List.Perm.cons _ (List.Perm.swap _ _ _)) (by decide) exOrder_fastLoad (by decide)
      (by decide)⟩

/-- Witness of C4: the package metadata of `exOrder`. -/
theorem package_identity_witness :
    ds.Package exOrder =
      .ok { Help := "desc", Name := "k8s", Import := "k.libsonnet", API := [], Sub := [] } ∧
    ∀ pkg, fastLoad exOrder = .ok pkg →
      pkg.Name = "k8s" ∧ pkg.Help = "desc" ∧ pkg.Import = "k.libsonnet" :=
  package_identity exOrder
    [("name", .str "k8s"), ("help", .str "desc"), ("import", .str "k.libsonnet")]
    "k8s" "desc" "k.libsonnet" rfl rfl rfl rfl

/-- Witness of C5: in the package decoded from `exRootLib`, the sub-package of the
key `lib` is stored under its declared name `p`, and there is no `API["lib"]`. -/
theorem fastLoad_sub_package_witness :
    ∃ pkg, fastLoad exRootLib = .ok pkg ∧ pkg.Sub.lookup "p" = some (exSubPkg "h1") ∧
      pkg.API.lookup "lib" = none := by
  obtain ⟨p, meta, N, hp, _, _, hN, _, huniq, _, _, hapi⟩ :=
    fastLoad_sub_package exRootLib _ "lib"
      [("#", .map [("name", .str "p"), ("help", .str "h1"), ("import", .str "i")])]
      (by decide) exRootLib_fastLoad (List.mem_cons_of_mem _ (List.mem_cons_self _ _))
      (by decide) rfl
  rw [exSub_fastLoad] at hp
  cases hp
  have hN' : N = "p" := hN.symm
  subst hN'
  refine ⟨_, exRootLib_fastLoad, huniq ?_, hapi (by decide)⟩
  intro k' m' meta' hmem hne hpre _
  simp only [exRootLib, List.mem_cons, Prod.mk.injEq, List.mem_nil_iff, or_false] at hmem
  rcases hmem with ⟨rfl, _⟩ | ⟨rfl, _⟩
  · exact absurd hpre (by decide)
  · exact absurd rfl hne

/-- Witness of C9: the value `foo` of `exRootNoType` has a help text and no type. -/
theorem loadValue_missing_type_witness :
    (∃ e, loadValue "foo" [("help", .str "a value")] = .error e) ∧
    (∃ e, fastLoad exRootNoType = .error e) :=
  have h := loadValue_missing_type "foo" [("help", .str "a value")] exRootNoType "#foo"
    [("value", .map [("help", .str "a value")])] [("help", .str "a value")]
  ⟨h.1.2 (by simp [List.lookup]),
    h.2.2 (List.mem_cons_of_mem _ (List.mem_cons_self _ _)) (by decide) (by decide) rfl rfl rfl
      (by simp [List.lookup])⟩

/-- Witness of C10: the object `widget` in a parent without the key `widget`. -/
theorem loadObj_missing_sibling_witness :
    loadObj "widget" [("help", .str "a widget")] [("#", exMeta)] =
      .ok (.mk none (some (.mk "widget" "a widget" [])) none) ∧
    loadField "widget" [("object", .map [("help", .str "a widget")])] [("#", exMeta)] =
      .ok (.mk none (some (.mk "widget" "a widget" [])) none) :=
  have h := loadObj_missing_sibling "widget" [("help", .str "a widget")] [("#", exMeta)]
    [("object", .map [("help", .str "a widget")])] "a widget" rfl rfl
  ⟨h.1, h.2 rfl rfl⟩

/-! ## The package extractor -/

theorem Package_error_iff (d : ds) :
    (∃ e, ds.Package d = .error e) ↔
      ¬ ∃ meta N H I, d.lookup "#" = some (.map meta) ∧ meta.lookup "name" = some (.str N) ∧
          meta.lookup "help" = some (.str H) ∧ meta.lookup "import" = some (.str I) := by
  constructor
  · rintro ⟨e, he⟩ ⟨meta, N, H, I, hmeta, hname, hhelp, himport⟩
    rw [Package_ok hmeta hname hhelp himport] at he
    cases he
  · intro hno
    cases hp : ds.Package d with
    | error e => exact ⟨e, rfl⟩
    | ok p =>
      obtain ⟨meta, hmeta, hname, hhelp, himport⟩ := Package_inv hp
      exact absurd ⟨meta, _, _, _, hmeta, hname, hhelp, himport⟩ hno

theorem Package_absent {d : ds} (h : d.lookup "#" = none) :
    ds.Package d = .error (.fatal "Package declaration missing") := by
  simp only [ds.Package, h]

theorem Package_malformed {d : ds} {hash : Val} (h : d.lookup "#" = some hash)
    (hbad : ¬ ∃ meta N H I, hash = .map meta ∧ meta.lookup "name" = some (.str N) ∧
          meta.lookup "help" = some (.str H) ∧ meta.lookup "import" = some (.str I)) :
    ds.Package d = .error .typeAssertion := by
  cases hp : ds.Package d with
  | ok p =>
    obtain ⟨meta, hmeta, hname, hhelp, himport⟩ := Package_inv hp
    rw [h] at hmeta
    cases hmeta
    exact absurd ⟨meta, _, _, _, rfl, hname, hhelp, himport⟩ hbad
  | error e =>
    unfold ds.Package at hp
    rw [h] at hp
    simp only at hp
    cases hash with
    | map meta =>
      simp only [asMap, bind, Except.bind] at hp
      cases h1 : asString (meta.lookup "help") with
      | error e1 =>
        have : e1 = .typeAssertion := by
          unfold asString at h1; split at h1 <;> cases h1; rfl
        rw [h1] at hp; simp only at hp; cases hp; rw [this]
      | ok sh =>
        rw [h1] at hp; simp only at hp
        cases h2 : asString (meta.lookup "name") with
        | error e2 =>
          have : e2 = .typeAssertion := by
            unfold asString at h2; split at h2 <;> cases h2; rfl
          rw [h2] at hp; simp only at hp; cases hp; rw [this]
        | ok sn =>
          rw [h2] at hp; simp only at hp
          cases h3 : asString (meta.lookup "import") with
          | error e3 =>
            have : e3 = .typeAssertion := by
              unfold asString at h3; split at h3 <;> cases h3; rfl
            rw [h3] at hp; simp only at hp; cases hp; rw [this]
          | ok si =>
            rw [h3] at hp; simp only [pure, Except.pure] at hp; cases hp
    | _ => simp only [asMap, bind, Except.bind] at hp; cases hp; rfl

theorem fastLoad_error_of_Package {d : ds} {e : Err} (h : ds.Package d = .error e) :
    fastLoad d = .error e := by
  rw [fastLoad_eq, h]
  rfl

/-! ## The builders -/

/-- C14. Value builder result: when `msi["type"]` is the string `t`, `loadValue`
returns the field whose only populated variant is the value with `Name = name`,
`Type = t`, `Help = msi["help"]` when that is a string and `""` otherwise, and
`Default = msi["default"]` whatever its shape, nil when the key is absent. -/
theorem loadValue_result (name : String) (msi : Msi) (t : String)
    (htype : msi.lookup "type" = some (.str t)) :
    ∃ v : Value, loadValue name msi = .ok (.mk none none (some v)) ∧
      v.Name = name ∧ v.Type_ = t ∧
      (∀ s, msi.lookup "help" = some (.str s) → v.Help = s) ∧
      ((¬ ∃ s, msi.lookup "help" = some (.str s)) → v.Help = "") ∧
      (∀ d, msi.lookup "default" = some d → v.Default = d) ∧
      (msi.lookup "default" = none → v.Default = .null) := by
  refine ⟨{ Name := name, Help := helpOrEmpty msi, Type_ := t, Default := defaultOf msi },
    ?_, rfl, rfl, ?_, ?_, ?_, ?_⟩
  · simp only [loadValue, htype]
  · intro s hs
    simp only [helpOrEmpty, hs]
  · intro hno
    show helpOrEmpty msi = ""
    unfold helpOrEmpty
    split
    · rename_i s hs; exact absurd ⟨s, hs⟩ hno
    · rfl
  · intro d hd
    simp only [defaultOf, hd, Option.getD_some]
  · intro hd
    simp only [defaultOf, hd, Option.getD_none]

/-- Witness of C14: the value metadata of Scenario A, with a string default. -/
theorem loadValue_result_witness :
    loadValue "foo" [("type", .str "string"), ("default", .str "bar"), ("help", .str "a value")] =
      .ok (.mk none none
        (some { Name := "foo", Help := "a value", Type_ := "string", Default := .str "bar" })) := by
  obtain ⟨v, hv, hn, ht, hh, _, hd, _⟩ := loadValue_result "foo"
    [("type", .str "string"), ("default", .str "bar"), ("help", .str "a value")] "string" rfl
  have h1 := hh "a value" rfl
  have h2 := hd (.str "bar") rfl
  obtain ⟨n, h, t, d⟩ := v
  simp only at hn ht h1 h2
  subst hn ht h1 h2
  exact hv

/-- C16. Object builder requires help: when `msi["help"]` is absent or is not a
string, `loadObj` fails with a type assertion panic, for every name and every
parent, whether or not the parent has the sibling `parent[name]`. -/
theorem loadObj_requires_help (name : String) (msi parent : Msi)
    (hhelp : ¬ ∃ H, msi.lookup "help" = some (.str H)) :
    loadObj name msi parent = .error .typeAssertion := by
  rw [loadObj_eq]
  have : asString (msi.lookup "help") = .error .typeAssertion := by
    unfold asString
    split
    · rename_i s hs; exact absurd ⟨s, hs⟩ hhelp
    · rfl
  rw [this]
  rfl

/-- Witness of C16: object metadata without help, with and without the sibling. -/
theorem loadObj_requires_help_witness :
    loadObj "widget" [] [("widget", .map [])] = .error .typeAssertion ∧
    loadObj "widget" [("help", .num 1)] [] = .error .typeAssertion :=
  ⟨loadObj_requires_help "widget" [] [("widget", .map [])] (by simp [List.lookup]),
   loadObj_requires_help "widget" [("help", .num 1)] [] (by simp [List.lookup])⟩

/-- C20. Dispatch priority of `loadField`: the marker `function` is looked at
first, then `object`, then `value`, and the first one present decides. With
`function` present the result is that of `loadFn` on its mapping (a type
assertion panic when it is not a mapping), whatever `object` and `value` hold;
with `function` absent and `object` present it is that of `loadObj`; with both
absent and `value` present it is that of `loadValue`. A marker of lower
priority is never read. -/
theorem loadField_dispatch (name : String) (field parent : Msi) :
    (∀ m, field.lookup "function" = some (.map m) →
      loadField name field parent = loadFn name m) ∧
    (∀ v, field.lookup "function" = some v → (∀ m, v ≠ .map m) →
      loadField name field parent = .error .typeAssertion) ∧
    (∀ m, field.lookup "function" = none → field.lookup "object" = some (.map m) →
      loadField name field parent = loadObj name m parent) ∧
    (∀ v, field.lookup "function" = none → field.lookup "object" = some v →
      (∀ m, v ≠ .map m) → loadField name field parent = .error .typeAssertion) ∧
    (∀ m, field.lookup "function" = none → field.lookup "object" = none →
      field.lookup "value" = some (.map m) →
      loadField name field parent = loadValue name m) ∧
    (∀ v, field.lookup "function" = none → field.lookup "object" = none →
      field.lookup "value" = some v → (∀ m, v ≠ .map m) →
      loadField name field parent = .error .typeAssertion) := by
  refine ⟨?_, ?_, ?_, ?_, ?_, ?_⟩
  · intro m h
    rw [loadField_eq, h]; rfl
  · intro v h hv
    rw [loadField_eq, h]
    cases v with
    | map m => exact absurd rfl (hv m)
    | _ => rfl
  · intro m h1 h2
    rw [loadField_eq, h1, h2]
  · intro v h1 h2 hv
    rw [loadField_eq, h1, h2]
    cases v with
    | map m => exact absurd rfl (hv m)
    | _ => rfl
  · intro m h1 h2 h3
    rw [loadField_eq, h1, h2, h3]; rfl
  · intro v h1 h2 h3 hv
    rw [loadField_eq, h1, h2, h3]
    cases v with
    | map m => exact absurd rfl (hv m)
    | _ => rfl

/-- Witness of C20: metadata with all three markers, the lower two malformed. -/
theorem loadField_dispatch_witness :
    loadField "f" [("value", .str "junk"), ("object", .num 0), ("function", .map [])] [] =
      .ok (.mk (some { Name := "f", Help := "", Args := [] }) none none) ∧
    loadField "o" [("value", .str "junk"), ("object", .map [("help", .str "h")])] [] =
      loadObj "o" [("help", .str "h")] [] ∧
    loadField "f" [("function", .str "junk"), ("object", .map [("help", .str "h")])] [] =
      .error .typeAssertion :=
  ⟨(loadField_dispatch "f" _ []).1 [] rfl,
   (loadField_dispatch "o" _ []).2.2.1 [("help", .str "h")] rfl rfl,
   (loadField_dispatch "f" _ []).2.1 (.str "junk") rfl (fun m h => by cases h)⟩

/-! ## The scenarios of the specification -/

theorem exPrefix_widget :
    trimPrefix "#widget" = "widget" ∧ hasPrefix "#widget" = true ∧
      trimPrefix "#foo" = "foo" ∧ hasPrefix "#foo" = true ∧
      trimPrefix "foo" = "foo" ∧ hasPrefix "foo" = false := by
  decide

theorem fastLoadStep_reserved (d : ds) (pkg : Package) (v : Val) :
    fastLoadStep d pkg ("#", v) = .ok pkg := by
  simp only [fastLoadStep, if_true]
  rfl

theorem fastLoadStep_not_map (d : ds) (pkg : Package) (k : String) (v : Val)
    (hk : k ≠ "#") (hv : ∀ m, v ≠ .map m) :
    fastLoadStep d pkg (k, v) = .error .typeAssertion := by
  simp only [fastLoadStep, hk, if_false]
  cases v with
  | map m => exact absurd rfl (hv m)
  | _ => rfl

theorem fastLoadStep_nested {d : ds} {pkg : Package} {k : String} {f : Msi}
    {r : Option Field} (hk : k ≠ "#") (hpre : hasPrefix k = false)
    (hsub : f.lookup "#" = none) (hn : loadNested (trimPrefix k) f = .ok r) :
    fastLoadStep d pkg (k, .map f) =
      .ok (match r with
        | some nested =>
          if !fieldsHas pkg.API (trimPrefix k) then
            { pkg with API := mapSet pkg.API (trimPrefix k) nested }
          else pkg
        | none => pkg) := by
  simp only [fastLoadStep, hk, if_false, hpre, hsub, hn]
  cases r with
  | none => rfl
  | some nested =>
    simp only [Option.isSome_none, Bool.false_eq_true, if_false, bind, Except.bind]
    split <;> rfl

theorem fastLoad_of_Package {d : ds} {p : Package} (h : ds.Package d = .ok p) :
    fastLoad d = d.foldlM (fastLoadStep d) { p with API := [], Sub := [] } := by
  rw [fastLoad_eq, h]
  rfl

theorem exMeta_Package (rest : ds) :
    ds.Package (("#", exMeta) :: rest) =
      .ok { Help := "desc", Name := "k8s", Import := "k.libsonnet", API := [], Sub := [] } :=
  @Package_ok _ [("name", .str "k8s"), ("help", .str "desc"), ("import", .str "k.libsonnet")]
    _ _ _ rfl rfl rfl rfl

theorem exScenarioB_fails : fastLoad exScenarioB = .error .typeAssertion := by
  have hf : loadField "widget" [("object", .map []), ("help", .str "a widget")] exScenarioB =
      .error .typeAssertion := by
    rw [loadField_eq]
    simp [List.lookup]
    rw [loadObj_eq]
    rfl
  unfold exScenarioB at hf ⊢
  rw [fastLoad_of_Package (exMeta_Package _)]
  simp only [List.foldlM_cons, List.foldlM_nil, fastLoadStep_reserved, bind, Except.bind]
  rw [fastLoadStep_annotated (k := "#widget") (by decide) (by decide)]
  simp only [exPrefix_widget.1, hf]
  rfl

/-- C11 (counterexample). Scenario B as written, with the help text next to the
marker `object` and not inside its mapping: `loadObj` reads `help` from the
empty `object` mapping, and `fastLoad` fails with a type assertion panic. -/
theorem scenarioB_as_written_fails :
    fastLoad exScenarioB = .error .typeAssertion ∧
    loadObj "widget" [] exScenarioB = .error .typeAssertion :=
  ⟨exScenarioB_fails, by rw [loadObj_eq]; rfl⟩

/-- C11 (amended). Scenario B with the help text inside the `object` mapping: for
a root with valid package metadata under `"#"` plus the entry `"#widget"` whose
metadata has no `function` marker and the `object` marker
`{help: "a widget"}`, and no sibling key `widget`, `fastLoad` succeeds in both
visiting orders and `API` is the single entry `widget`, the object
`{Name: "widget", Help: "a widget", Fields: {}}`. -/
theorem scenarioB_decodes (meta field msi : Msi) (N H I : String)
    (hname : meta.lookup "name" = some (.str N))
    (hhelp : meta.lookup "help" = some (.str H))
    (himport : meta.lookup "import" = some (.str I))
    (hfn : field.lookup "function" = none)
    (hobj : field.lookup "object" = some (.map msi))
    (hmsi : msi.lookup "help" = some (.str "a widget")) :
    fastLoad [("#", .map meta), ("#widget", .map field)] =
      .ok { Help := H, Name := N, Import := I,
            API := [("widget", .mk none (some (.mk "widget" "a widget" [])) none)],
            Sub := [] } ∧
    fastLoad [("#widget", .map field), ("#", .map meta)] =
      .ok { Help := H, Name := N, Import := I,
            API := [("widget", .mk none (some (.mk "widget" "a widget" [])) none)],
            Sub := [] } := by
  have hf : ∀ parent : Msi, parent.lookup "widget" = none →
      loadField "widget" field parent =
        .ok (.mk none (some (.mk "widget" "a widget" [])) none) := by
    intro parent hp
    rw [loadField_eq, hfn, hobj]
    simp only
    rw [loadObj_eq, hmsi, hp]
    rfl
  constructor
  · rw [fastLoad_of_Package (Package_ok (d := [("#", .map meta), ("#widget", .map field)])
      rfl hname hhelp himport)]
    simp only [List.foldlM_cons, List.foldlM_nil, fastLoadStep_reserved, bind, Except.bind]
    rw [fastLoadStep_annotated (k := "#widget") (by decide) (by decide)]
    simp only [exPrefix_widget.1]
    rw [hf [("#", .map meta), ("#widget", .map field)] rfl]
    rfl
  · rw [fastLoad_of_Package (Package_ok (d := [("#widget", .map field), ("#", .map meta)])
      rfl hname hhelp himport)]
    simp only [List.foldlM_cons, List.foldlM_nil, fastLoadStep_reserved, bind, Except.bind]
    rw [fastLoadStep_annotated (k := "#widget") (by decide) (by decide)]
    simp only [exPrefix_widget.1]
    rw [hf [("#widget", .map field), ("#", .map meta)] rfl]
    rfl

/-- Witness of C11: the package metadata of `exMeta` and the entry
`"#widget": {object: {help: "a widget"}}`. -/
theorem scenarioB_decodes_witness :
    fastLoad [("#", exMeta), ("#widget", .map [("object", .map [("help", .str "a widget")])])] =
      .ok { Help := "desc", Name := "k8s", Import := "k.libsonnet",
            API := [("widget", exWidget)], Sub := [] } :=
  (scenarioB_decodes [("name", .str "k8s"), ("help", .str "desc"), ("import", .str "k.libsonnet")]
    [("object", .map [("help", .str "a widget")])] [("help", .str "a widget")]
    "k8s" "desc" "k.libsonnet" rfl rfl rfl rfl rfl rfl).1

theorem exFoo_field (parent : Msi) :
    loadField "foo" [("value", .map [("type", .str "string"), ("default", .str "bar"),
      ("help", .str "a value")])] parent = .ok exFoo := by
  rw [loadField_eq]
  simp [List.lookup, asMap, loadValue, helpOrEmpty, defaultOf, exFoo, bind, Except.bind]

theorem exScenarioA_fails : fastLoad exScenarioA = .error .typeAssertion := by
  unfold exScenarioA exScenarioAValue
  rw [fastLoad_of_Package (exMeta_Package _)]
  simp only [List.foldlM_cons, List.foldlM_nil, fastLoadStep_reserved, bind, Except.bind]
  rw [fastLoadStep_annotated (k := "#foo") (by decide) (by decide)]
  simp only [exPrefix_widget.2.2.1, exFoo_field, Except.map]
  rw [fastLoadStep_not_map _ _ "foo" _ (by decide) (fun m h => by cases h)]

theorem foldlM_error_eq {α β : Type} (f : β → α → Except Err β) (a₀ : α) (e₀ : Err)
    (hfail : ∀ b, f b a₀ = .error e₀) :
    ∀ (l : List α) (b : β), a₀ ∈ l →
      (∀ a ∈ l, ∀ b, (∃ b', f b a = .ok b') ∨ f b a = .error e₀) →
      l.foldlM f b = .error e₀
  | [], _, h, _ => by simp at h
  | a :: l, b, h, hall => by
    rw [List.foldlM_cons]
    rcases hall a (List.mem_cons_self _ _) b with ⟨b', hb'⟩ | herr
    · rw [hb']
      rcases List.mem_cons.1 h with heq | hmem
      · subst heq
        rw [hfail b] at hb'
        cases hb'
      · exact foldlM_error_eq f a₀ e₀ hfail l b' hmem
          (fun a' ha' => hall a' (List.mem_cons_of_mem _ ha'))
    · rw [herr]
      rfl

theorem exScenarioA_perm_fails (order : ds) (hperm : order.Perm exScenarioA) :
    fastLoad order = .error .typeAssertion := by
  have hlook : order.lookup "#" = some (.map [("name", .str "k8s"), ("help", .str "desc"),
      ("import", .str "k.libsonnet")]) := by
    rw [← lookup_perm hperm.symm (by decide) "#"]
    rfl
  rw [fastLoad_of_Package (Package_ok hlook rfl rfl rfl)]
  refine foldlM_error_eq (fastLoadStep order) ("foo", Val.str "unused") .typeAssertion
    (fun b => fastLoadStep_not_map order b "foo" _ (by decide) (fun m h => by cases h))
    order _ (hperm.symm.subset (by simp [exScenarioA])) ?_
  intro a ha b
  have ha' : a ∈ exScenarioA := hperm.subset ha
  simp only [exScenarioA, List.mem_cons, List.mem_nil_iff, or_false] at ha'
  rcases ha' with rfl | rfl | rfl
  · exact Or.inl ⟨b, fastLoadStep_reserved order b _⟩
  · left
    unfold exScenarioAValue
    rw [fastLoadStep_annotated (k := "#foo") (by decide) (by decide)]
    simp only [exPrefix_widget.2.2.1, exFoo_field, Except.map]
    exact ⟨_, rfl⟩
  · exact Or.inr (fastLoadStep_not_map order b "foo" _ (by decide) (fun m h => by cases h))

/-- C12 (counterexample). Scenario A as written: the sibling `"foo": "unused"` is
a scalar, the loop asserts every value other than that of `"#"` to be a
mapping, and `fastLoad` fails with a type assertion panic, in every visiting
order of the root. -/
theorem scenarioA_as_written_fails :
    fastLoad exScenarioA = .error .typeAssertion ∧
    ∀ order : ds, order.Perm exScenarioA → fastLoad order = .error .typeAssertion :=
  ⟨exScenarioA_fails, exScenarioA_perm_fails⟩

/-- C12 (amended). Scenario A with a sibling that is a mapping: for the root
`{"#": {name: "k8s", help: "desc", import: "k.libsonnet"}, "#foo": {value:
{type: "string", default: "bar", help: "a value"}}}`, alone or with a sibling
`"foo"` whose value is a mapping without the reserved key that `loadNested`
decodes (found or not), `fastLoad` succeeds, whichever of `"#foo"` and `"foo"`
is visited first, and returns the package `k8s` whose `API` is the single entry
`foo`, the value `{Name: "foo", Type: "string", Default: "bar", Help: "a
value"}`. The scalar sibling `"foo": "unused"` of the scenario as written is
not tolerated: in every visiting order of that root `fastLoad` fails with a
type assertion panic. -/
theorem scenarioA_decodes (sib : Msi) (r : Option Field)
    (hsub : sib.lookup "#" = none) (hn : loadNested "foo" sib = .ok r) :
    fastLoad [("#", exMeta), ("#foo", exScenarioAValue)] =
      .ok { Help := "desc", Name := "k8s", Import := "k.libsonnet",
            API := [("foo", exFoo)], Sub := [] } ∧
    fastLoad [("#", exMeta), ("#foo", exScenarioAValue), ("foo", .map sib)] =
      .ok { Help := "desc", Name := "k8s", Import := "k.libsonnet",
            API := [("foo", exFoo)], Sub := [] } ∧
    fastLoad [("#", exMeta), ("foo", .map sib), ("#foo", exScenarioAValue)] =
      .ok { Help := "desc", Name := "k8s", Import := "k.libsonnet",
            API := [("foo", exFoo)], Sub := [] } ∧
    (∀ order : ds, order.Perm exScenarioA → fastLoad order = .error .typeAssertion) := by
  have hn' : loadNested (trimPrefix "foo") sib = .ok r := by
    rw [exPrefix_widget.2.2.2.2.1]; exact hn
  refine ⟨?_, ?_, ?_, exScenarioA_perm_fails⟩
  · unfold exScenarioAValue
    rw [fastLoad_of_Package (exMeta_Package _)]
    simp only [List.foldlM_cons, List.foldlM_nil, fastLoadStep_reserved, bind, Except.bind]
    rw [fastLoadStep_annotated (k := "#foo") (by decide) (by decide)]
    simp only [exPrefix_widget.2.2.1, exFoo_field, Except.map]
    rfl
  · unfold exScenarioAValue
    rw [fastLoad_of_Package (exMeta_Package _)]
    simp only [List.foldlM_cons, List.foldlM_nil, fastLoadStep_reserved, bind, Except.bind]
    rw [fastLoadStep_annotated (k := "#foo") (by decide) (by decide)]
    simp only [exPrefix_widget.2.2.1, exFoo_field, Except.map]
    rw [fastLoadStep_nested (k := "foo") (by decide) (by decide) hsub hn']
    cases r <;> simp [fieldsHas, mapSet, exPrefix_widget.2.2.2.2.1, pure, Except.pure]
  · unfold exScenarioAValue
    rw [fastLoad_of_Package (exMeta_Package _)]
    simp only [List.foldlM_cons, List.foldlM_nil, fastLoadStep_reserved, bind, Except.bind]
    rw [fastLoadStep_nested (k := "foo") (by decide) (by decide) hsub hn']
    cases r with
    | none =>
      simp only []
      rw [fastLoadStep_annotated (k := "#foo") (by decide) (by decide)]
      simp only [exPrefix_widget.2.2.1, exFoo_field, Except.map]
      rfl
    | some nested =>
      simp only [fieldsHas, List.lookup, Option.isSome_none, Bool.not_false, if_true]
      rw [fastLoadStep_annotated (k := "#foo") (by decide) (by decide)]
      simp only [exPrefix_widget.2.2.1, exPrefix_widget.2.2.2.2.1, exFoo_field, Except.map]
      simp [mapSet, pure, Except.pure]

/-- Witness of C12: the sibling `"foo": {}`, an empty mapping, and the scalar
sibling of the scenario as written. -/
theorem scenarioA_decodes_witness :
    fastLoad [("#", exMeta), ("#foo", exScenarioAValue), ("foo", .map [])] =
      .ok { Help := "desc", Name := "k8s", Import := "k.libsonnet",
            API := [("foo", exFoo)], Sub := [] } ∧
    fastLoad [("#", exMeta), ("#foo", exScenarioAValue), ("foo", .str "unused")] =
      .error .typeAssertion :=
  have h := scenarioA_decodes [] none rfl (by rw [loadNested_eq]; rfl)
  ⟨h.2.1, h.2.2.2 _ (List.Perm.refl _)⟩

/-! ## The function builder -/

theorem loadArgs_eq (is : List Val) : loadArgs is = is.mapM loadArg := rfl

theorem loadArgs_nil : loadArgs [] = .ok [] := rfl

theorem loadArgs_cons (i : Val) (is : List Val) :
    loadArgs (i :: is) = (do
      let a ← loadArg i
      let as ← loadArgs is
      pure (a :: as)) := by
  simp only [loadArgs_eq, List.mapM_cons]

theorem loadArg_ok_iff (v : Val) (a : Argument) : loadArg v = .ok a ↔ ArgumentOf v a := by
  constructor
  · intro h
    cases v with
    | map arg =>
      simp only [loadArg, asMap, bind, Except.bind] at h
      cases h1 : arg.lookup "name" with
      | none => simp [h1, asString] at h
      | some vn =>
        cases vn with
        | str n =>
          cases h2 : arg.lookup "type" with
          | none => simp [h1, h2, asString] at h
          | some vt =>
            cases vt with
            | str t =>
              simp [h1, h2, asString, pure, Except.pure] at h
              subst h
              exact ⟨arg, rfl, h1, h2, rfl⟩
            | _ => simp [h1, h2, asString] at h
        | _ => simp [h1, asString] at h
    | _ => simp [loadArg, asMap, bind, Except.bind] at h
  · rintro ⟨arg, rfl, hn, ht, hd⟩
    obtain ⟨n, t, d⟩ := a
    simp only at hn ht hd
    subst hd
    simp only [loadArg, asMap, bind, Except.bind, hn, ht, asString, pure, Except.pure, defaultOf]

theorem loadArg_error (v : Val) (e : Err) (h : loadArg v = .error e) : e = .typeAssertion := by
  cases v with
  | map arg =>
    simp only [loadArg, asMap, bind, Except.bind] at h
    cases h1 : asString (arg.lookup "name") with
    | error e1 =>
      have : e1 = .typeAssertion := by
        unfold asString at h1; split at h1 <;> cases h1; rfl
      rw [h1] at h; simp only at h; cases h; exact this
    | ok n =>
      rw [h1] at h; simp only at h
      cases h2 : asString (arg.lookup "type") with
      | error e2 =>
        have : e2 = .typeAssertion := by
          unfold asString at h2; split at h2 <;> cases h2; rfl
        rw [h2] at h; simp only at h; cases h; exact this
      | ok t => rw [h2] at h; simp only [pure, Except.pure] at h; cases h
  | _ => simp only [loadArg, asMap, bind, Except.bind] at h; cases h; rfl

theorem loadArgs_ok_iff : ∀ (is : List Val) (args : List Argument),
    loadArgs is = .ok args ↔ List.Forall₂ ArgumentOf is args
  | [], args => by
    rw [loadArgs_nil]
    constructor
    · intro h; cases h; exact List.Forall₂.nil
    · intro h; cases h; rfl
  | i :: is, args => by
    rw [loadArgs_cons]
    constructor
    · intro h
      cases h1 : loadArg i with
      | error e => rw [h1] at h; cases h
      | ok a =>
        rw [h1] at h
        cases h2 : loadArgs is with
        | error e => rw [h2] at h; cases h
        | ok as =>
          rw [h2] at h
          cases h
          exact List.Forall₂.cons ((loadArg_ok_iff i a).1 h1) ((loadArgs_ok_iff is as).1 h2)
    · intro h
      cases h with
      | cons ha has =>
        rw [(loadArg_ok_iff i _).2 ha, (loadArgs_ok_iff is _).2 has]
        rfl

theorem loadArgs_error : ∀ (is : List Val) (e : Err), loadArgs is = .error e →
    e = .typeAssertion
  | [], e, h => by rw [loadArgs_nil] at h; cases h
  | i :: is, e, h => by
    rw [loadArgs_cons] at h
    cases h1 : loadArg i with
    | error e1 =>
      rw [h1] at h; cases h
      exact loadArg_error i _ h1
    | ok a =>
      rw [h1] at h
      cases h2 : loadArgs is with
      | error e2 =>
        rw [h2] at h; cases h
        exact loadArgs_error is _ h2
      | ok as => rw [h2] at h; cases h

theorem loadFn_eq (name : String) (msi : Msi) :
    loadFn name msi =
      match msi.lookup "args" with
      | some (.seq is) =>
        (loadArgs is).map fun as =>
          .mk (some { Name := name, Help := helpOrEmpty msi, Args := as }) none none
      | some _ => .error .typeAssertion
      | none => .ok (.mk (some { Name := name, Help := helpOrEmpty msi, Args := [] }) none none) := by
  unfold loadFn
  cases h : msi.lookup "args" with
  | none => rfl
  | some v =>
    cases v with
    | seq is =>
      simp only
      cases loadArgs is <;> rfl
    | _ => rfl

/-- C15. Function builder result: `loadFn` returns a function with `Name = name`
and `Help = msi["help"]` when that is a string, `""` otherwise. Without `args`
the arguments are empty. When `args` is a sequence, `loadFn` succeeds exactly
when every element is a mapping with a string `name` and a string `type`, and
then `Args` has the length and the order of the sequence, the i-th argument
being the `{Name, Type, Default}` of the i-th element (`Default` as it is, nil
when absent). `loadFn` fails with a type assertion panic when `args` is not a
sequence, or when some element is not such a mapping. -/
theorem loadFn_result (name : String) (msi : Msi) :
    (∀ s, msi.lookup "help" = some (.str s) → helpOrEmpty msi = s) ∧
    ((¬ ∃ s, msi.lookup "help" = some (.str s)) → helpOrEmpty msi = "") ∧
    (msi.lookup "args" = none →
      loadFn name msi =
        .ok (.mk (some { Name := name, Help := helpOrEmpty msi, Args := [] }) none none)) ∧
    (∀ is, msi.lookup "args" = some (.seq is) →
      (∀ v ∈ is, ∃ arg n t, v = .map arg ∧ arg.lookup "name" = some (.str n) ∧
          arg.lookup "type" = some (.str t)) →
      ∃ args, loadFn name msi =
          .ok (.mk (some { Name := name, Help := helpOrEmpty msi, Args := args }) none none) ∧
        args.length = is.length ∧ List.Forall₂ ArgumentOf is args) ∧
    (∀ is fld, msi.lookup "args" = some (.seq is) → loadFn name msi = .ok fld →
      ∃ args, fld = .mk (some { Name := name, Help := helpOrEmpty msi, Args := args }) none none ∧
        List.Forall₂ ArgumentOf is args) ∧
    (∀ v, msi.lookup "args" = some v → (∀ is, v ≠ .seq is) →
      loadFn name msi = .error .typeAssertion) ∧
    (∀ is, msi.lookup "args" = some (.seq is) →
      (∃ v ∈ is, ¬ ∃ arg n t, v = .map arg ∧ arg.lookup "name" = some (.str n) ∧
          arg.lookup "type" = some (.str t)) →
      loadFn name msi = .error .typeAssertion) := by
  refine ⟨?_, ?_, ?_, ?_, ?_, ?_, ?_⟩
  · intro s hs
    simp only [helpOrEmpty, hs]
  · intro hno
    unfold helpOrEmpty
    split
    · rename_i s hs; exact absurd ⟨s, hs⟩ hno
    · rfl
  · intro h
    rw [loadFn_eq, h]
  · intro is h hwf
    have hex : ∃ args, List.Forall₂ ArgumentOf is args := by
      clear h
      induction is with
      | nil => exact ⟨[], List.Forall₂.nil⟩
      | cons v vs ih =>
        obtain ⟨args, hargs⟩ := ih (fun w hw => hwf w (List.mem_cons_of_mem _ hw))
        obtain ⟨arg, n, t, hv, hn, ht⟩ := hwf v (List.mem_cons_self _ _)
        exact ⟨{ Name := n, Type_ := t, Default := (arg.lookup "default").getD .null } :: args,
          List.Forall₂.cons ⟨arg, hv, hn, ht, rfl⟩ hargs⟩
    obtain ⟨args, hargs⟩ := hex
    refine ⟨args, ?_, hargs.length_eq.symm, hargs⟩
    rw [loadFn_eq, h]
    simp only [(loadArgs_ok_iff is args).2 hargs]
    rfl
  · intro is fld h hok
    rw [loadFn_eq, h] at hok
    simp only at hok
    cases hargs : loadArgs is with
    | error e => rw [hargs] at hok; cases hok
    | ok args =>
      rw [hargs] at hok
      cases hok
      exact ⟨args, rfl, (loadArgs_ok_iff is args).1 hargs⟩
  · intro v h hv
    rw [loadFn_eq, h]
    cases v with
    | seq is => exact absurd rfl (hv is)
    | _ => rfl
  · rintro is h ⟨v, hmem, hbad⟩
    rw [loadFn_eq, h]
    simp only
    cases hargs : loadArgs is with
    | error e =>
      rw [loadArgs_error is e hargs]
      rfl
    | ok args =>
      exfalso
      have hall := (loadArgs_ok_iff is args).1 hargs
      clear hargs h
      induction hall with
      | nil => cases hmem
      | cons ha _ ih =>
        rcases List.mem_cons.1 hmem with rfl | hm
        · obtain ⟨arg, hv, hn, ht, _⟩ := ha
          exact hbad ⟨arg, _, _, hv, hn, ht⟩
        · exact ih hm

/-- Witness of C15: a function with two arguments, the second with a default. -/
theorem loadFn_result_witness :
    loadFn "new" [("help", .str "constructor"), ("args", .seq [
        .map [("name", .str "name"), ("type", .str "string")],
        .map [("name", .str "replicas"), ("type", .str "number"), ("default", .num 1)]])] =
      .ok (.mk (some { Name := "new", Help := "constructor", Args := [
        { Name := "name", Type_ := "string", Default := .null },
        { Name := "replicas", Type_ := "number", Default := .num 1 }] }) none none) ∧
    loadFn "new" [("args", .seq [.map [("name", .str "name")]])] = .error .typeAssertion ∧
    loadFn "new" [("args", .str "name")] = .error .typeAssertion := by
  refine ⟨?_, ?_, ?_⟩
  · obtain ⟨args, hok, _, hall⟩ := (loadFn_result "new" [("help", .str "constructor"),
      ("args", .seq [
        .map [("name", .str "name"), ("type", .str "string")],
        .map [("name", .str "replicas"), ("type", .str "number"), ("default", .num 1)]])]).2.2.2.1
      _ rfl (by
        intro v hv
        simp only [List.mem_cons, List.mem_nil_iff, or_false] at hv
        rcases hv with rfl | rfl
        · exact ⟨_, "name", "string", rfl, rfl, rfl⟩
        · exact ⟨_, "replicas", "number", rfl, rfl, rfl⟩)
    have h1 := (loadArgs_ok_iff _ _).2 hall
    have h2 : loadArgs [
        .map [("name", .str "name"), ("type", .str "string")],
        .map [("name", .str "replicas"), ("type", .str "number"), ("default", .num 1)]] =
      .ok [{ Name := "name", Type_ := "string", Default := .null },
        { Name := "replicas", Type_ := "number", Default := .num 1 }] := rfl
    rw [h2] at h1
    cases h1
    exact hok
  · exact (loadFn_result "new" _).2.2.2.2.2.2 _ rfl
      ⟨_, List.mem_cons_self _ _, by
        rintro ⟨arg, n, t, hv, _, ht⟩
        cases hv
        simp [List.lookup] at ht⟩
  · exact (loadFn_result "new" _).2.2.2.2.2.1 _ rfl (fun is h => by cases h)

/-! ## The loops of `loadNested` and `loadObj` -/

theorem loadNestedStep_inv {msi : Msi} {acc acc' : Fields × Bool} {e : String × Val}
    (h : loadNestedStep msi acc e = .ok acc') : LoadNestedStepOk msi acc e acc' := by
  obtain ⟨k, v⟩ := e
  unfold loadNestedStep at h
  cases v with
  | map f =>
    simp only [] at h
    cases hpre : hasPrefix k with
    | true =>
      simp only [hpre, Bool.not_true, Bool.false_eq_true, if_false] at h
      cases hl : loadField (trimPrefix k) f msi with
      | error err => rw [hl] at h; cases h
      | ok l =>
        rw [hl] at h
        cases h
        exact .annotated f l rfl hpre hl rfl
    | false =>
      simp only [hpre, Bool.not_false, if_true] at h
      cases hn : loadNested k f with
      | error err => rw [hn] at h; cases h
      | ok r =>
        rw [hn] at h
        cases r with
        | none => cases h; exact .skipped f rfl hpre hn rfl
        | some l => cases h; exact .found f l rfl hpre hn rfl
  | _ => cases h

theorem loadObjStep_inv {childs : Msi} {acc acc' : Fields} {e : String × Val}
    (h : loadObjStep childs acc e = .ok acc') : LoadObjStepOk childs acc e acc' := by
  obtain ⟨k, v⟩ := e
  unfold loadObjStep at h
  cases v with
  | map f =>
    simp only [] at h
    cases hpre : hasPrefix k with
    | true =>
      simp only [hpre, Bool.not_true, Bool.false_eq_true, if_false] at h
      cases hl : loadField (trimPrefix k) f childs with
      | error err => rw [hl] at h; cases h
      | ok l =>
        rw [hl] at h
        cases h
        exact .annotated f l rfl hpre hl rfl
    | false =>
      simp only [hpre, Bool.not_false, if_true] at h
      cases hn : loadNested k f with
      | error err => rw [hn] at h; cases h
      | ok r =>
        rw [hn] at h
        cases r with
        | none => cases h; exact .skipped f rfl hpre hn rfl
        | some l => cases h; exact .found f l rfl hpre hn rfl
  | _ => cases h

theorem loadNested_ok {name : String} {msi : Msi} {r : Option Field}
    (h : loadNested name msi = .ok r) :
    ∃ fields ok, msi.foldlM (loadNestedStep msi) (([] : Fields), false) = .ok (fields, ok) ∧
      r = if ok then some (.mk none (some (.mk name "" fields)) none) else none := by
  rw [loadNested_eq] at h
  cases hf : msi.foldlM (loadNestedStep msi) (([] : Fields), false) with
  | error e => rw [hf] at h; cases h
  | ok res =>
    rw [hf] at h
    obtain ⟨fields, ok⟩ := res
    refine ⟨fields, ok, rfl, ?_⟩
    cases ok <;> · cases h; rfl

theorem loadNested_flag (msi : Msi) : ∀ (l : Msi) (acc acc' : Fields × Bool),
    l.foldlM (loadNestedStep msi) acc = .ok acc' →
      (acc'.2 = true ↔ acc.2 = true ∨ ∃ e ∈ l, hasPrefix e.1 = true)
  | [], acc, acc', h => by
    cases h
    simp
  | e :: l, acc, acc', h => by
    obtain ⟨mid, hstep, hrest⟩ := foldlM_ok_cons _ _ _ _ _ h
    rw [loadNested_flag msi l mid acc' hrest]
    have hmid : mid.2 = true ↔ acc.2 = true ∨ hasPrefix e.1 = true := by
      cases loadNestedStep_inv hstep with
      | annotated _ _ _ hpre _ heq => subst heq; simp [hpre]
      | found _ _ _ hpre _ heq => subst heq; simp [hpre]
      | skipped _ _ hpre _ heq => subst heq; simp [hpre]
    rw [hmid]
    simp only [List.mem_cons, exists_eq_or_imp, or_assoc]

theorem loadNested_isSome_iff {name : String} {msi : Msi} {r : Option Field}
    (h : loadNested name msi = .ok r) :
    r.isSome = true ↔ ∃ e ∈ msi, hasPrefix e.1 = true := by
  obtain ⟨fields, ok, hfold, hr⟩ := loadNested_ok h
  have hflag := loadNested_flag msi msi _ _ hfold
  simp only [Bool.false_eq_true, false_or] at hflag
  rw [← hflag, hr]
  cases ok <;> simp

/-- C18. Exact found-condition of `loadNested`: when `loadNested name subtree`
does not fail, it reports `found = true` exactly when some key directly in
`subtree` starts with `"#"`. A child that `loadNested` finds under an
unprefixed key does not make the parent found: without a marker-prefixed key
of its own the parent returns `(nil, false)` and the object of the child is
dropped. When found, the result is the field whose only variant is the object
with `Name = name` and empty `Help`. -/
theorem loadNested_found_condition (name : String) (subtree : Msi) (r : Option Field)
    (h : loadNested name subtree = .ok r) :
    (r.isSome = true ↔ ∃ e ∈ subtree, hasPrefix e.1 = true) ∧
    (∀ k f child, (k, Val.map f) ∈ subtree → loadNested k f = .ok (some child) →
      (∀ e ∈ subtree, hasPrefix e.1 = false) → r = none) ∧
    (∀ fld, r = some fld →
      ∃ fields, fld = .mk none (some (.mk name "" fields)) none) := by
  refine ⟨loadNested_isSome_iff h, ?_, ?_⟩
  · intro k f child _ _ hall
    cases r with
    | none => rfl
    | some fld =>
      obtain ⟨e, he, hpre⟩ := (loadNested_isSome_iff h).1 rfl
      rw [hall e he] at hpre
      cases hpre
  · intro fld hfld
    obtain ⟨fields, ok, _, hr⟩ := loadNested_ok h
    cases ok with
    | false => rw [hfld] at hr; cases hr
    | true =>
      rw [hfld] at hr
      simp only [if_true, Option.some.injEq] at hr
      exact ⟨fields, hr⟩

/-- Witness of C18: `exDeep` has no marker-prefixed key of its own and its child
`a` is found; `exInner` has the key `"#y"`. -/
theorem loadNested_found_condition_witness :
    loadNested "a" exInner = .ok (some (exNested "a")) ∧
    loadNested "n" exDeep = .ok none ∧
    ((none : Option Field).isSome = true ↔ ∃ e ∈ exDeep, hasPrefix e.1 = true) ∧
    ((some (exNested "a")).isSome = true ↔ ∃ e ∈ exInner, hasPrefix e.1 = true) :=
  ⟨exInner_nested "a", exDeep_nested "n",
    (loadNested_found_condition "n" exDeep none (exDeep_nested "n")).1,
    (loadNested_found_condition "a" exInner _ (exInner_nested "a")).1⟩

/-! ## The keys of `API` -/

theorem lookup_mapSet_isSome {β : Type} (m : List (String × β)) (k k' : String) (v : β) :
    ((mapSet m k v).lookup k').isSome = true ↔ k' = k ∨ (m.lookup k').isSome = true := by
  by_cases h : k' = k
  · subst h
    simp [lookup_mapSet_self]
  · rw [lookup_mapSet_ne _ _ _ _ h]
    simp [h]

theorem fastLoadStep_api_keys {d : ds} {acc acc' : Package} {e : String × Val}
    (h : fastLoadStep d acc e = .ok acc') (name : String) :
    (acc'.API.lookup name).isSome = true ↔
      (acc.API.lookup name).isSome = true ∨ DeclaresApi e name := by
  have hres : hasPrefix "#" = true := by decide
  cases fastLoadStep_inv h with
  | reserved hk heq =>
    subst heq
    constructor
    · exact Or.inl
    · rintro (h1 | ⟨_, hne, _⟩ | ⟨f, he, hpre, _⟩)
      · exact h1
      · exact absurd hk hne
      · rw [he] at hk
        simp only at hk
        rw [hk, hres] at hpre
        cases hpre
  | annotated f l hk hv hpre hl heq =>
    subst heq
    show ((mapSet acc.API (trimPrefix e.1) l).lookup name).isSome = true ↔ _
    rw [lookup_mapSet_isSome]
    constructor
    · rintro (h1 | h1)
      · exact Or.inr (Or.inl ⟨hpre, hk, h1.symm⟩)
      · exact Or.inl h1
    · rintro (h1 | ⟨_, _, h1⟩ | ⟨f', he, hpre', _⟩)
      · exact Or.inr h1
      · exact Or.inl h1.symm
      · rw [he] at hpre
        simp only at hpre
        rw [hpre] at hpre'
        cases hpre'
  | subPackage f p hk hv hpre hsub hp heq =>
    subst heq
    show (acc.API.lookup name).isSome = true ↔ _
    constructor
    · exact Or.inl
    · rintro (h1 | ⟨hpre', _, _⟩ | ⟨f', he, _, hno, _⟩)
      · exact h1
      · rw [hpre] at hpre'; cases hpre'
      · rw [he] at hv
        simp only at hv
        cases hv
        rw [hno] at hsub
        cases hsub
  | nestedNew f nested hk hv hpre hsub hn hhas heq =>
    subst heq
    show ((mapSet acc.API (trimPrefix e.1) nested).lookup name).isSome = true ↔ _
    rw [lookup_mapSet_isSome, trimPrefix_of_not hpre]
    constructor
    · rintro (h1 | h1)
      · right; right
        refine ⟨f, ?_, h1 ▸ hpre, ?_, ?_⟩
        · rw [h1, ← hv]
        · cases hl : f.lookup "#" with
          | none => rfl
          | some v => rw [hl] at hsub; cases hsub
        · exact (loadNested_isSome_iff hn).1 rfl
      · exact Or.inl h1
    · rintro (h1 | ⟨hpre', _, _⟩ | ⟨f', he, _, _, _⟩)
      · exact Or.inr h1
      · rw [hpre] at hpre'; cases hpre'
      · left
        rw [he]
  | nestedKept f nested hk hv hpre hsub hn hhas heq =>
    subst heq
    constructor
    · exact Or.inl
    · rintro (h1 | ⟨hpre', _, _⟩ | ⟨f', he, _, _, _⟩)
      · exact h1
      · rw [hpre] at hpre'; cases hpre'
      · rw [trimPrefix_of_not hpre, he] at hhas
        exact hhas
  | plain f hk hv hpre hsub hn heq =>
    subst heq
    constructor
    · exact Or.inl
    · rintro (h1 | ⟨hpre', _, _⟩ | ⟨f', he, _, _, hex⟩)
      · exact h1
      · rw [hpre] at hpre'; cases hpre'
      · rw [he] at hv
        simp only at hv
        cases hv
        rw [trimPrefix_of_not hpre] at hn
        have := (loadNested_isSome_iff hn).2 hex
        cases this

theorem fastLoad_fold_api_keys (d : ds) (name : String) : ∀ (l : ds) (acc r : Package),
    l.foldlM (fastLoadStep d) acc = .ok r →
      ((r.API.lookup name).isSome = true ↔
        (acc.API.lookup name).isSome = true ∨ ∃ e ∈ l, DeclaresApi e name)
  | [], acc, r, h => by
    cases h
    simp
  | e :: l, acc, r, h => by
    obtain ⟨mid, hstep, hrest⟩ := foldlM_ok_cons _ _ _ _ _ h
    rw [fastLoad_fold_api_keys d name l mid r hrest, fastLoadStep_api_keys hstep name]
    simp only [List.mem_cons, exists_eq_or_imp, or_assoc]

/-- C19. Key set of `API`: when `fastLoad` succeeds on the root, `name` is a key of
the result's `API` exactly when `name` is a root key that starts with `"#"`,
other than `"#"`, with one leading `"#"` removed, or `name` is a root key that
does not start with `"#"` whose value is a mapping that does not contain the
key `"#"` and has at least one key starting with `"#"`. Only one marker is
removed: the field of a root key `"#" ++ s` is stored under `s`, so that of
`"##x"` is stored under `"#x"`. -/
theorem fastLoad_api_keys (root : ds) (pkg : Package) (name : String)
    (hok : fastLoad root = .ok pkg) :
    ((pkg.API.lookup name).isSome = true ↔
      (∃ k ∈ root.map Prod.fst, hasPrefix k = true ∧ k ≠ "#" ∧ trimPrefix k = name) ∨
      (∃ f, (name, Val.map f) ∈ root ∧ hasPrefix name = false ∧ f.lookup "#" = none ∧
        ∃ e ∈ f, hasPrefix e.1 = true)) ∧
    (∀ s, ("#" ++ s) ∈ root.map Prod.fst → s ≠ "" → name = s →
      (pkg.API.lookup name).isSome = true) := by
  obtain ⟨p, _, hfold⟩ := fastLoad_ok hok
  have hkeys := fastLoad_fold_api_keys root name root _ pkg hfold
  have hiff : (pkg.API.lookup name).isSome = true ↔
      (∃ k ∈ root.map Prod.fst, hasPrefix k = true ∧ k ≠ "#" ∧ trimPrefix k = name) ∨
      (∃ f, (name, Val.map f) ∈ root ∧ hasPrefix name = false ∧ f.lookup "#" = none ∧
        ∃ e ∈ f, hasPrefix e.1 = true) := by
    rw [hkeys]
    constructor
    · rintro (h | ⟨e, he, ⟨h1, h2, h3⟩ | ⟨f, hef, h1, h2, h3⟩⟩)
      · simp at h
      · exact Or.inl ⟨e.1, List.mem_map.2 ⟨e, he, rfl⟩, h1, h2, h3⟩
      · exact Or.inr ⟨f, hef ▸ he, h1, h2, h3⟩
    · rintro (⟨k, hk, h1, h2, h3⟩ | ⟨f, hf, h1, h2, h3⟩)
      · obtain ⟨e, he, rfl⟩ := List.mem_map.1 hk
        exact Or.inr ⟨e, he, Or.inl ⟨h1, h2, h3⟩⟩
      · exact Or.inr ⟨_, hf, Or.inr ⟨f, rfl, h1, h2, h3⟩⟩
  refine ⟨hiff, ?_⟩
  intro s hs hne hname
  subst hname
  exact hiff.2 (Or.inl ⟨_, hs, hasPrefix_marker _, marker_ne_reserved hne, trimPrefix_marker _⟩)

theorem fastLoadStep_subPackage {d : ds} {pkg p : Package} {k : String} {f : Msi}
    (hk : k ≠ "#") (hpre : hasPrefix k = false) (hsub : (f.lookup "#").isSome = true)
    (hp : fastLoad f = .ok p) :
    fastLoadStep d pkg (k, .map f) = .ok { pkg with Sub := mapSet pkg.Sub p.Name p } := by
  simp only [fastLoadStep, hk, if_false, hpre, hsub, if_true, hp]
  rfl

theorem exRootKeys_fastLoad : fastLoad exRootKeys =
    .ok { Help := "desc", Name := "k8s", Import := "k.libsonnet",
          API := [("#x", exField "#x"), ("a", exNested "a")],
          Sub := [("p", exSubPkg "h1")] } := by
  have t : trimPrefix "##x" = "#x" ∧ trimPrefix "a" = "a" ∧ trimPrefix "b" = "b" := by decide
  have ha : loadNested (trimPrefix "a") exInner = .ok (some (exNested "a")) := by
    rw [t.2.1]; exact exInner_nested "a"
  have hb : loadNested (trimPrefix "b") [] = .ok none := by
    rw [loadNested_eq]; rfl
  unfold exRootKeys exValue exSub
  rw [fastLoad_of_Package (exMeta_Package _)]
  simp only [List.foldlM_cons, List.foldlM_nil, fastLoadStep_reserved, bind, Except.bind]
  rw [fastLoadStep_annotated (k := "##x") (by decide) (by decide)]
  simp only [t.1, exValue_field, Except.map]
  rw [fastLoadStep_nested (k := "a") (by decide) (by decide) (by simp [exInner, List.lookup]) ha]
  simp only [fieldsHas, t.2.1, mapSet, List.lookup]
  rw [fastLoadStep_nested (k := "b") (f := []) (by decide) (by decide) rfl hb]
  simp only []
  rw [fastLoadStep_subPackage (k := "lib")
    (f := [("#", .map [("name", .str "p"), ("help", .str "h1"), ("import", .str "i")])])
    (by decide) (by decide) rfl (exSub_fastLoad "h1")]
  simp [mapSet, exSubPkg, pure, Except.pure]

/-- Witness of C19: the keys of `API` for `exRootKeys` are `"#x"` and `a`; the
plain data `b` and the sub-package `lib` give none. -/
theorem fastLoad_api_keys_witness :
    ∃ pkg, fastLoad exRootKeys = .ok pkg ∧
      (pkg.API.lookup "#x").isSome = true ∧ (pkg.API.lookup "a").isSome = true ∧
      pkg.API.lookup "x" = none ∧ pkg.API.lookup "b" = none ∧ pkg.API.lookup "lib" = none :=
  ⟨_, exRootKeys_fastLoad,
    (fastLoad_api_keys exRootKeys _ "#x" exRootKeys_fastLoad).2 "#x" (by decide) (by decide) rfl,
    (fastLoad_api_keys exRootKeys _ "a" exRootKeys_fastLoad).1.2
      (Or.inr ⟨exInner, by simp [exRootKeys], by decide, by simp [exInner, List.lookup],
        ⟨("#y", exValue), by simp [exInner], by decide⟩⟩),
    rfl, rfl, rfl⟩

/-! ## The tagged-union invariant -/

theorem fieldsTagged_mapSet (m : Fields) (k : String) (f : Field)
    (hm : fieldsTagged m = true) (hf : f.tagged = true) :
    fieldsTagged (mapSet m k f) = true := by
  induction m with
  | nil => simp [mapSet, fieldsTagged, entryTagged, hf]
  | cons e rest ih =>
    obtain ⟨k', f'⟩ := e
    simp only [fieldsTagged, entryTagged, Bool.and_eq_true] at hm
    by_cases h : k' = k
    · simp [mapSet, h, fieldsTagged, entryTagged, hf, hm.2]
    · simp [mapSet, h, fieldsTagged, entryTagged, hm.1, ih hm.2]

theorem subsTagged_mapSet (m : List (String × Package)) (k : String) (p : Package)
    (hm : subsTagged m = true) (hp : p.tagged = true) :
    subsTagged (mapSet m k p) = true := by
  induction m with
  | nil => simp [mapSet, subsTagged, subTagged, hp]
  | cons e rest ih =>
    obtain ⟨k', p'⟩ := e
    simp only [subsTagged, subTagged, Bool.and_eq_true] at hm
    by_cases h : k' = k
    · simp [mapSet, h, subsTagged, subTagged, hp, hm.2]
    · simp [mapSet, h, subsTagged, subTagged, hm.1, ih hm.2]

theorem tagged_object (name help : String) (fs : Fields) :
    Field.tagged (.mk none (some (.mk name help fs)) none) = fieldsTagged fs := by
  simp [Field.tagged, Field.populated, optObjectTagged, Object.tagged]

theorem tagged_populated (f : Field) (h : f.tagged = true) : f.populated = 1 := by
  obtain ⟨fn, o, v⟩ := f
  simp only [Field.tagged, Bool.and_eq_true, beq_iff_eq] at h
  exact h.1

theorem Package_tagged_iff (p : Package) :
    p.tagged = true ↔ fieldsTagged p.API = true ∧ subsTagged p.Sub = true := by
  obtain ⟨h, n, i, api, sub⟩ := p
  simp [Package.tagged]

theorem loadFn_tagged {name : String} {msi : Msi} {fld : Field}
    (h : loadFn name msi = .ok fld) : fld.tagged = true := by
  rw [loadFn_eq] at h
  split at h
  · rename_i is _
    cases hargs : loadArgs is with
    | error e => rw [hargs] at h; cases h
    | ok as => rw [hargs] at h; cases h; rfl
  · cases h
  · cases h; rfl

theorem loadValue_tagged {name : String} {msi : Msi} {fld : Field}
    (h : loadValue name msi = .ok fld) : fld.tagged = true := by
  unfold loadValue at h
  split at h
  · cases h; rfl
  · cases h

theorem loadObj_tagged_of (parent : Msi)
    (hN : ∀ (k : String) (f : Msi), sizeOf f < sizeOf parent →
      ∀ fld, loadNested k f = .ok (some fld) → fld.tagged = true)
    (hF : ∀ childs : Msi, sizeOf childs < sizeOf parent →
      ∀ name f fld, loadField name f childs = .ok fld → fld.tagged = true)
    (name : String) (msi : Msi) (fld : Field)
    (h : loadObj name msi parent = .ok fld) : fld.tagged = true := by
  rw [loadObj_eq] at h
  cases hh : asString (msi.lookup "help") with
  | error e => rw [hh] at h; cases h
  | ok help =>
    rw [hh] at h
    simp only [bind, Except.bind] at h
    cases hp : parent.lookup name with
    | none =>
      rw [hp] at h
      cases h
      rfl
    | some iChilds =>
      rw [hp] at h
      cases iChilds with
      | map childs =>
        simp only at h
        have hlt : sizeOf childs < sizeOf parent := sizeOf_lt_of_lookup_map hp
        cases hfold : childs.foldlM (loadObjStep childs) ([] : Fields) with
        | error e => rw [hfold] at h; cases h
        | ok fields =>
          rw [hfold] at h
          cases h
          rw [tagged_object]
          refine foldlM_invariant (loadObjStep childs) (fun acc => fieldsTagged acc = true)
            childs [] fields rfl ?_ hfold
          intro a ha acc acc' hacc hstep
          cases loadObjStep_inv hstep with
          | annotated f l hv hpre hl heq =>
            subst heq
            exact fieldsTagged_mapSet _ _ _ hacc (hF childs hlt _ _ _ hl)
          | found f l hv hpre hn heq =>
            subst heq
            have hmem : (a.1, Val.map f) ∈ childs := by rw [← hv]; exact ha
            exact fieldsTagged_mapSet _ _ _ hacc
              (hN a.1 f (Nat.lt_trans (sizeOf_lt_of_mem_map hmem) hlt) _ hn)
          | skipped f hv hpre hn heq => subst heq; exact hacc
      | _ => cases h

theorem loadField_tagged_of (parent : Msi)
    (hN : ∀ (k : String) (f : Msi), sizeOf f < sizeOf parent →
      ∀ fld, loadNested k f = .ok (some fld) → fld.tagged = true)
    (hF : ∀ childs : Msi, sizeOf childs < sizeOf parent →
      ∀ name f fld, loadField name f childs = .ok fld → fld.tagged = true)
    (name : String) (field : Msi) (fld : Field)
    (h : loadField name field parent = .ok fld) : fld.tagged = true := by
  rw [loadField_eq] at h
  cases h1 : field.lookup "function" with
  | some ifn =>
    rw [h1] at h
    cases ifn with
    | map m => exact loadFn_tagged h
    | _ => cases h
  | none =>
    rw [h1] at h
    cases h2 : field.lookup "object" with
    | some iobj =>
      rw [h2] at h
      cases iobj with
      | map m => exact loadObj_tagged_of parent hN hF name m fld h
      | _ => cases h
    | none =>
      rw [h2] at h
      cases h3 : field.lookup "value" with
      | some vobj =>
        rw [h3] at h
        cases vobj with
        | map m => exact loadValue_tagged h
        | _ => cases h
      | none => rw [h3] at h; cases h

theorem loadNested_tagged_of (msi : Msi)
    (hN : ∀ (k : String) (f : Msi), sizeOf f < sizeOf msi →
      ∀ fld, loadNested k f = .ok (some fld) → fld.tagged = true)
    (hF : ∀ name f fld, loadField name f msi = .ok fld → fld.tagged = true)
    (name : String) (fld : Field)
    (h : loadNested name msi = .ok (some fld)) : fld.tagged = true := by
  obtain ⟨fields, ok, hfold, hr⟩ := loadNested_ok h
  cases ok with
  | false => cases hr
  | true =>
    simp only [if_true, Option.some.injEq] at hr
    subst hr
    rw [tagged_object]
    refine foldlM_invariant (loadNestedStep msi) (fun acc => fieldsTagged acc.1 = true)
      msi ([], false) (fields, true) rfl ?_ hfold
    intro a ha acc acc' hacc hstep
    cases loadNestedStep_inv hstep with
    | annotated f l hv hpre hl heq =>
      subst heq
      exact fieldsTagged_mapSet _ _ _ hacc (hF _ _ _ hl)
    | found f l hv hpre hn heq =>
      subst heq
      have hmem : (a.1, Val.map f) ∈ msi := by rw [← hv]; exact ha
      exact fieldsTagged_mapSet _ _ _ hacc (hN a.1 f (sizeOf_lt_of_mem_map hmem) _ hn)
    | skipped f hv hpre hn heq => subst heq; exact hacc

theorem fastLoad_tagged_of (d : ds)
    (hN : ∀ (k : String) (f : Msi), sizeOf f < sizeOf d →
      ∀ fld, loadNested k f = .ok (some fld) → fld.tagged = true)
    (hF : ∀ name f fld, loadField name f d = .ok fld → fld.tagged = true)
    (hP : ∀ f : Msi, sizeOf f < sizeOf d → ∀ p, fastLoad f = .ok p → p.tagged = true)
    (pkg : Package) (h : fastLoad d = .ok pkg) : pkg.tagged = true := by
  obtain ⟨p, _, hfold⟩ := fastLoad_ok h
  refine foldlM_invariant (fastLoadStep d) (fun q => q.tagged = true) d
    { p with API := [], Sub := [] } pkg rfl ?_ hfold
  intro a ha acc acc' hacc hstep
  rw [Package_tagged_iff] at hacc ⊢
  cases fastLoadStep_inv hstep with
  | reserved _ heq => subst heq; exact hacc
  | annotated f l _ hv _ hl heq =>
    subst heq
    exact ⟨fieldsTagged_mapSet _ _ _ hacc.1 (hF _ _ _ hl), hacc.2⟩
  | subPackage f p' _ hv _ _ hp heq =>
    subst heq
    have hmem : (a.1, Val.map f) ∈ d := by rw [← hv]; exact ha
    exact ⟨hacc.1, subsTagged_mapSet _ _ _ hacc.2 (hP f (sizeOf_lt_of_mem_map hmem) _ hp)⟩
  | nestedNew f nested _ hv _ _ hn _ heq =>
    subst heq
    have hmem : (a.1, Val.map f) ∈ d := by rw [← hv]; exact ha
    exact ⟨fieldsTagged_mapSet _ _ _ hacc.1 (hN _ f (sizeOf_lt_of_mem_map hmem) _ hn), hacc.2⟩
  | nestedKept _ _ _ _ _ _ _ _ heq => subst heq; exact hacc
  | plain _ _ _ _ _ _ heq => subst heq; exact hacc

theorem tagged_aux (n : Nat) :
    (∀ parent : Msi, sizeOf parent ≤ n →
      ∀ name field fld, loadField name field parent = .ok fld → fld.tagged = true) ∧
    (∀ msi : Msi, sizeOf msi ≤ n →
      ∀ name fld, loadNested name msi = .ok (some fld) → fld.tagged = true) ∧
    (∀ d : ds, sizeOf d ≤ n → ∀ pkg, fastLoad d = .ok pkg → pkg.tagged = true) := by
  induction n with
  | zero =>
    refine ⟨?_, ?_, ?_⟩ <;>
    · intro l hl
      cases l <;> simp at hl
  | succ n ih =>
    obtain ⟨ihF, ihN, ihP⟩ := ih
    have hF : ∀ parent : Msi, sizeOf parent ≤ n + 1 →
        ∀ name field fld, loadField name field parent = .ok fld → fld.tagged = true := by
      intro parent hsz
      exact loadField_tagged_of parent
        (fun k f hlt => ihN f (by omega) k)
        (fun childs hlt => ihF childs (by omega))
    have hN : ∀ msi : Msi, sizeOf msi ≤ n + 1 →
        ∀ name fld, loadNested name msi = .ok (some fld) → fld.tagged = true := by
      intro msi hsz
      exact loadNested_tagged_of msi
        (fun k f hlt => ihN f (by omega) k)
        (hF msi hsz)
    refine ⟨hF, hN, ?_⟩
    intro d hsz
    exact fastLoad_tagged_of d
      (fun k f hlt => ihN f (by omega) k)
      (hF d hsz)
      (fun f hlt => ihP f (by omega))

/-- C17. Tagged-union invariant: every field that `loadField` or `loadNested`
returns has exactly one of `Function`, `Object`, `Value` populated, and so has
every field of the object it holds, at any depth; in every package that
`fastLoad` returns this holds for every entry of `API` and for every
sub-package in `Sub`, at any depth. -/
theorem decode_tagged_union :
    (∀ (name : String) (field parent : Msi) (fld : Field),
      loadField name field parent = .ok fld → fld.populated = 1 ∧ fld.tagged = true) ∧
    (∀ (name : String) (msi : Msi) (fld : Field),
      loadNested name msi = .ok (some fld) → fld.populated = 1 ∧ fld.tagged = true) ∧
    (∀ (d : ds) (pkg : Package), fastLoad d = .ok pkg →
      pkg.tagged = true ∧ fieldsTagged pkg.API = true ∧ subsTagged pkg.Sub = true) := by
  refine ⟨?_, ?_, ?_⟩
  · intro name field parent fld h
    have := (tagged_aux (sizeOf parent)).1 parent (Nat.le_refl _) name field fld h
    exact ⟨tagged_populated _ this, this⟩
  · intro name msi fld h
    have := (tagged_aux (sizeOf msi)).2.1 msi (Nat.le_refl _) name fld h
    exact ⟨tagged_populated _ this, this⟩
  · intro d pkg h
    have := (tagged_aux (sizeOf d)).2.2 d (Nat.le_refl _) pkg h
    exact ⟨this, (Package_tagged_iff pkg).1 this⟩

/-- Witness of C17: the package decoded from `exRootKeys`, with a value, an object
that holds a value, and a sub-package. -/
theorem decode_tagged_union_witness :
    Package.tagged
      { Help := "desc", Name := "k8s", Import := "k.libsonnet",
        API := [("#x", exField "#x"), ("a", exNested "a")],
        Sub := [("p", exSubPkg "h1")] } = true ∧
    (exNested "a").populated = 1 ∧ (exNested "a").tagged = true :=
  ⟨(decode_tagged_union.2.2 exRootKeys _ exRootKeys_fastLoad).1,
    decode_tagged_union.2.1 "a" exInner _ (exInner_nested "a")⟩

/-! ## The package extractor and `fastLoad` -/

theorem exRootNoType_fails :
    fastLoad exRootNoType = .error (.panic "value foo lacking type information") := by
  have hf : loadField "foo" [("value", .map [("help", .str "a value")])] exRootNoType =
      .error (.panic "value foo lacking type information") := by
    rw [loadField_value "foo" [("value", .map [("help", .str "a value")])]
      [("help", .str "a value")] exRootNoType rfl rfl rfl]
    rfl
  unfold exRootNoType at hf ⊢
  rw [fastLoad_of_Package (exMeta_Package _)]
  simp only [List.foldlM_cons, List.foldlM_nil, fastLoadStep_reserved, bind, Except.bind]
  rw [fastLoadStep_annotated (k := "#foo") (by decide) (by decide)]
  simp only [exPrefix_widget.2.2.1, hf]
  rfl

/-- C13 (counterexample). The root `exRootNoType` has the reserved key with a
mapping that holds the three strings, so `ds.Package` succeeds and none of the
three failure conditions holds, and `fastLoad` fails all the same, in its loop,
on the value `foo` without a type: the failure of `fastLoad` is not equivalent
to the three conditions. -/
theorem fastLoad_fails_with_valid_package :
    exRootNoType.lookup "#" = some (.map [("name", .str "k8s"), ("help", .str "desc"),
      ("import", .str "k.libsonnet")]) ∧
    ds.Package exRootNoType =
      .ok { Help := "desc", Name := "k8s", Import := "k.libsonnet", API := [], Sub := [] } ∧
    fastLoad exRootNoType = .error (.panic "value foo lacking type information") ∧
    ¬ ((∃ e, fastLoad exRootNoType = .error e) ↔
      (exRootNoType.lookup "#" = none ∨
       (∃ hash, exRootNoType.lookup "#" = some hash ∧ ∀ meta, hash ≠ .map meta) ∨
       (∃ meta, exRootNoType.lookup "#" = some (.map meta) ∧
          ((¬ ∃ s, meta.lookup "help" = some (.str s)) ∨
           (¬ ∃ s, meta.lookup "name" = some (.str s)) ∨
           (¬ ∃ s, meta.lookup "import" = some (.str s)))))) := by
  have hl : exRootNoType.lookup "#" = some (.map [("name", .str "k8s"), ("help", .str "desc"),
      ("import", .str "k.libsonnet")]) := rfl
  refine ⟨hl, exMeta_Package _, exRootNoType_fails, ?_⟩
  intro hiff
  rcases hiff.1 ⟨_, exRootNoType_fails⟩ with h | ⟨hash, h, hne⟩ | ⟨meta, h, hbad⟩
  · rw [hl] at h; cases h
  · rw [hl] at h; cases h; exact hne _ rfl
  · rw [hl] at h
    cases h
    rcases hbad with hb | hb | hb
    · exact hb ⟨"desc", rfl⟩
    · exact hb ⟨"k8s", rfl⟩
    · exact hb ⟨"k.libsonnet", rfl⟩

/-- C13 (amended). Package extractor failures: `ds.Package` fails exactly when the
reserved key `"#"` is absent, or its value is not a mapping, or one of `help`,
`name`, `import` in it is missing or is not a string, and it succeeds in every
other case; the failure is the fatal exit `Package declaration missing` when
the key is absent and a type assertion panic otherwise. `fastLoad` fails with
the same error whenever `ds.Package` fails, so it succeeds only when
`ds.Package` does; the converse does not hold: there is a root on which
`ds.Package` succeeds and `fastLoad` fails. -/
theorem Package_failures (d : ds) :
    ((∃ e, ds.Package d = .error e) ↔
      (d.lookup "#" = none ∨
       (∃ hash, d.lookup "#" = some hash ∧ ∀ meta, hash ≠ .map meta) ∨
       (∃ meta, d.lookup "#" = some (.map meta) ∧
          ((¬ ∃ s, meta.lookup "help" = some (.str s)) ∨
           (¬ ∃ s, meta.lookup "name" = some (.str s)) ∨
           (¬ ∃ s, meta.lookup "import" = some (.str s)))))) ∧
    ((∃ p, ds.Package d = .ok p) ↔
      ∃ meta N H I, d.lookup "#" = some (.map meta) ∧ meta.lookup "name" = some (.str N) ∧
        meta.lookup "help" = some (.str H) ∧ meta.lookup "import" = some (.str I)) ∧
    (d.lookup "#" = none → ds.Package d = .error (.fatal "Package declaration missing")) ∧
    (∀ e, ds.Package d = .error e → d.lookup "#" ≠ none → e = .typeAssertion) ∧
    (∀ e, ds.Package d = .error e → fastLoad d = .error e) ∧
    (∀ pkg, fastLoad d = .ok pkg → ∃ p, ds.Package d = .ok p) ∧
    (∃ root : ds, (∃ p, ds.Package root = .ok p) ∧ ∃ e, fastLoad root = .error e) := by
  refine ⟨?_, ?_, Package_absent, ?_, fun e he => fastLoad_error_of_Package he,
    fun pkg hpkg => ?_, ⟨exRootNoType, ⟨_, exMeta_Package _⟩, _, exRootNoType_fails⟩⟩
  rotate_right
  · obtain ⟨p, hp, _⟩ := fastLoad_ok hpkg
    exact ⟨p, hp⟩
  · rw [Package_error_iff]
    constructor
    · intro hno
      cases hh : d.lookup "#" with
      | none => exact Or.inl rfl
      | some hash =>
        right
        cases hash with
        | map meta =>
          right
          refine ⟨meta, rfl, ?_⟩
          by_contra hcon
          simp only [not_or, not_not] at hcon
          obtain ⟨⟨H, hH⟩, ⟨N, hN⟩, ⟨I, hI⟩⟩ := hcon
          exact hno ⟨meta, N, H, I, hh, hN, hH, hI⟩
        | _ => exact Or.inl ⟨_, rfl, fun meta h => by cases h⟩
    · rintro (habs | ⟨hash, hh, hnm⟩ | ⟨meta, hh, hbad⟩) ⟨meta', N, H, I, hmeta, hN, hH, hI⟩
      · rw [habs] at hmeta; cases hmeta
      · rw [hh] at hmeta; cases hmeta; exact hnm meta' rfl
      · rw [hh] at hmeta; cases hmeta
        rcases hbad with hb | hb | hb
        · exact hb ⟨H, hH⟩
        · exact hb ⟨N, hN⟩
        · exact hb ⟨I, hI⟩
  · constructor
    · rintro ⟨p, hp⟩
      obtain ⟨meta, hmeta, hname, hhelp, himport⟩ := Package_inv hp
      exact ⟨meta, _, _, _, hmeta, hname, hhelp, himport⟩
    · rintro ⟨meta, N, H, I, hmeta, hN, hH, hI⟩
      exact ⟨_, Package_ok hmeta hN hH hI⟩
  · intro e he hpres
    cases hh : d.lookup "#" with
    | none => exact absurd hh hpres
    | some hash =>
      have hbad : ¬ ∃ meta N H I, hash = .map meta ∧ meta.lookup "name" = some (.str N) ∧
          meta.lookup "help" = some (.str H) ∧ meta.lookup "import" = some (.str I) := by
        rintro ⟨meta, N, H, I, rfl, hN, hH, hI⟩
        rw [Package_ok hh hN hH hI] at he
        cases he
      rw [Package_malformed hh hbad] at he
      cases he
      rfl

/-- Witness of C13: a package declaration without `import`. -/
theorem Package_failures_witness :
    ds.Package [("#", .map [("name", .str "k8s"), ("help", .str "desc")])] =
      .error .typeAssertion ∧
    fastLoad [("#", .map [("name", .str "k8s"), ("help", .str "desc")])] =
      .error .typeAssertion ∧
    ds.Package [("x", .map [])] = .error (.fatal "Package declaration missing") := by
  have h := Package_failures [("#", .map [("name", .str "k8s"), ("help", .str "desc")])]
  obtain ⟨e, he⟩ := h.1.2 (Or.inr (Or.inr ⟨_, rfl, Or.inr (Or.inr (by
    rintro ⟨s, hs⟩
    simp [List.lookup] at hs))⟩))
  have he' := h.2.2.2.1 e he (by simp [List.lookup])
  subst he'
  exact ⟨he, h.2.2.2.2.1 _ he, (Package_failures [("x", .map [])]).2.2.1 rfl⟩

end Docsonnet
